import Mathlib

/-!
# jean (gcool): switch-directive handoff, self-update, modal engine

A shallow embedding of the parts of the repository that the specification's
claims talk about, followed by the theorems that settle them.

* `main.go`: the serialisation of the switch directive and its handoff
  (file named by `GCOOL_SWITCH_FILE`, or standard output), and the automatic
  shell-integration bootstrap (`ensureShellIntegration`, `sourceAndReexec`)
  over an explicit process environment.
* `config/scripts.go`: `GetScriptNames`, the Go map being the list of its
  entries in the order of the `range` loop.
* `internal/update/update.go`: `UpdateGcool`, `downloadAndInstall`,
  `findAssetURL`, `downloadFile`, `extractBinary`, `copyFile`, `contains`,
  over an explicit file-system state; every operating-system call that
  returns an error in the Go source gets its outcome from an environment
  record, and the calls whose error the source discards are modelled the
  same way.
* `tui`: the two modal input handlers. Their bodies are not part of the
  sources at hand (only `tui/update_test.go` is), so they are modelled from
  the specification (sections 3, 4.1 and 4.2); the tests give the inputs at
  which they are evaluated.

Go strings are modelled by `String`, Go `int` by `Int`.
-/

namespace Jean

/-! ## main.go: switch directive -/

/-- The value of `m.GetSwitchInfo()`: the four fields `main` reads. -/
structure SwitchInfo where
  Path : String
  Branch : String
  AutoClaude : Bool
  TerminalOnly : Bool
deriving DecidableEq, Repr

/-- Lines 112-115 of `main.go`: `autoCl := "false"; if switchInfo.AutoClaude { autoCl = "true" }`. -/
def autoCl (switchInfo : SwitchInfo) : String :=
  if switchInfo.AutoClaude then "true" else "false"

/-- Lines 116-119 of `main.go`: `termOnly := "false"; if switchInfo.TerminalOnly { termOnly = "true" }`. -/
def termOnly (switchInfo : SwitchInfo) : String :=
  if switchInfo.TerminalOnly then "true" else "false"

/-- Line 120 of `main.go`:
`fmt.Sprintf("%s|%s|%s|%s", switchInfo.Path, switchInfo.Branch, autoCl, termOnly)`. -/
def switchData (switchInfo : SwitchInfo) : String :=
  switchInfo.Path ++ "|" ++ switchInfo.Branch ++ "|" ++ autoCl switchInfo ++ "|" ++ termOnly switchInfo

/-- What the tail of `main` does to the outside world, in order. -/
inductive Effect where
  /-- The call `os.WriteFile(name, []byte(data), perm)`. -/
  | writeFile (name : String) (data : String) (perm : Nat)
  /-- The call `fmt.Println(line)` on standard output. -/
  | println (line : String)
  /-- The call `fmt.Fprintf(os.Stderr, ...)` of the switch-file warning. -/
  | warnSwitchFile
deriving DecidableEq, Repr

/-- Lines 107-133 of `main.go`. `finalModel` is `some s` when the type
assertion `finalModel.(tui.Model)` holds and `GetSwitchInfo` gives `s`;
`getenv` is `os.Getenv` (the empty string for an unset variable);
`writeFails` tells whether `os.WriteFile` returns an error. -/
def mainHandoff (finalModel : Option SwitchInfo) (getenv : String → String)
    (writeFails : Bool) : List Effect :=
  match finalModel with
  | none => []
  | some switchInfo =>
    if switchInfo.Path ≠ "" then
      let switchFile := getenv "GCOOL_SWITCH_FILE"
      if switchFile ≠ "" then
        if writeFails then
          [Effect.writeFile switchFile (switchData switchInfo) 0o600, Effect.warnSwitchFile]
        else
          [Effect.writeFile switchFile (switchData switchInfo) 0o600]
      else
        [Effect.println (switchData switchInfo)]
    else
      []

/-- The reader's side of the handoff line: the fields between the `|`
delimiters. -/
def splitOnPipe (line : String) : List String :=
  (line.data.splitOn '|').map String.mk

/-- Files named by the effects that write one. -/
def filesWritten : List Effect → List (String × String × Nat)
  | [] => []
  | Effect.writeFile n d p :: es => (n, d, p) :: filesWritten es
  | _ :: es => filesWritten es

/-- Lines printed on standard output by the effects. -/
def stdoutLines : List Effect → List String
  | [] => []
  | Effect.println l :: es => l :: stdoutLines es
  | _ :: es => stdoutLines es

/-- The data handed to the reader by the effects, in order: what is written
to a file and what is printed on standard output. -/
def emittedLines : List Effect → List String
  | [] => []
  | Effect.writeFile _ d _ :: es => d :: emittedLines es
  | Effect.println l :: es => l :: emittedLines es
  | _ :: es => emittedLines es

/-- A directive as the handoff format expects it: a non-empty path, and no
delimiter in the path or the branch. -/
def WellFormed (s : SwitchInfo) : Prop :=
  s.Path ≠ "" ∧ '|' ∉ s.Path.data ∧ '|' ∉ s.Branch.data

/-! ## internal/update/update.go: data -/

/-- The struct `Asset` of `update.go`. -/
structure Asset where
  Name : String
  URL : String
  BrowserDownloadURL : String
deriving DecidableEq, Repr

/-- The struct `Release` of `update.go`. -/
structure Release where
  TagName : String
  Name : String
  Assets : List Asset
deriving DecidableEq, Repr

/-- Go's `s[i]` on a string, its characters standing for the bytes: `none` is
the run-time panic for an index out of range. -/
def byteAt (s : List Char) (i : Int) : Option Char :=
  if 0 ≤ i ∧ i < (s.length : Int) then s[i.toNat]? else none

/-- The inner loop of `contains` (lines 253-258), entered at `j` with `k`
iterations left before `j` reaches `len(substr)`: the final value of `match`. -/
def containsMatchLoop (s substr : List Char) (i : Int) : Nat → Nat → Option Bool
  | _, 0 => some true
  | j, k + 1 =>
    match byteAt s (i + (j : Int)), byteAt substr (j : Int) with
    | some a, some b => if a ≠ b then some false else containsMatchLoop s substr i (j + 1) k
    | _, _ => none

/-- The outer loop of `contains` (lines 251-262), entered at `i` with `k`
iterations left before `i` exceeds `len(s)-len(substr)`. -/
def containsScanLoop (s substr : List Char) : Int → Nat → Option Bool
  | _, 0 => some false
  | i, k + 1 =>
    match containsMatchLoop s substr i 0 substr.length with
    | none => none
    | some true => some true
    | some false => containsScanLoop s substr (i + 1) k

/-- The function `contains` of `update.go` (lines 250-264). The bound
`len(s)-len(substr)` is a signed `int`: when it is negative the loop body
never runs. `none` stands for an index-out-of-range panic. -/
def contains (s substr : String) : Option Bool :=
  containsScanLoop s.data substr.data 0
    (((s.data.length : Int) - (substr.data.length : Int) + 1).toNat)

/-- The loop of `findAssetURL` (lines 178-184) over the remaining assets. -/
def findAssetURLLoop : List Asset → Option String
  | [] => some ""
  | asset :: rest =>
    if asset.BrowserDownloadURL.data.length > 0 then
      match contains asset.Name ".tar.gz" with
      | none => none
      | some true => some asset.BrowserDownloadURL
      | some false => findAssetURLLoop rest
    else
      findAssetURLLoop rest

/-- The function `findAssetURL` of `update.go` (lines 175-186); `none` only if
`contains` panics. -/
def findAssetURL (release : Release) : Option String :=
  findAssetURLLoop release.Assets

/-! ## internal/update/update.go: the file system -/

/-- A regular file: its bytes and its permission bits. -/
structure File where
  content : List Nat
  mode : Nat
deriving DecidableEq, Repr

/-- The state of the file system: the regular file at each path, if any.
Directories are not represented. -/
abbrev FS := String → Option File

/-- The file system with the entry at `p` replaced. -/
def FS.set (fs : FS) (p : String) (f : Option File) : FS :=
  fun q => if q = p then f else fs q

/-- Whether `p` is `dir` itself or lies below it. -/
def isUnder (dir p : String) : Bool :=
  p == dir || (dir.data ++ ['/']).isPrefixOf p.data

/-- `filepath.Join(dir, name)` for a clean `dir` and a single element `name`. -/
def filepathJoin (dir name : String) : String :=
  dir ++ "/" ++ name

/-- `os.Rename(oldpath, newpath)`: `none` is an error, which leaves the file
system as it was. It fails when there is no file at `oldpath` or when the
environment refuses (`ok = false`); otherwise the file moves, replacing
whatever was at `newpath`. -/
def osRename (fs : FS) (ok : Bool) (oldpath newpath : String) : Option FS :=
  match fs oldpath with
  | none => none
  | some f => if ok then some ((fs.set oldpath none).set newpath (some f)) else none

/-- `os.Create(name)` when it succeeds: an existing file is truncated and keeps
its mode, a new one is created with mode 0666. -/
def osCreate (fs : FS) (name : String) : FS :=
  match fs name with
  | none => fs.set name (some ⟨[], 0o666⟩)
  | some f => fs.set name (some ⟨[], f.mode⟩)

/-- The file at `name` with its bytes replaced (the mode is kept). -/
def osWrite (fs : FS) (name : String) (data : List Nat) : FS :=
  match fs name with
  | none => fs
  | some f => fs.set name (some ⟨data, f.mode⟩)

/-- `os.Chmod(name, mode)`: `none` is an error, which changes nothing. -/
def osChmod (fs : FS) (ok : Bool) (name : String) (mode : Nat) : Option FS :=
  match fs name with
  | none => none
  | some f => if ok then some (fs.set name (some ⟨f.content, mode⟩)) else none

/-- `os.Remove(name)`: `none` is an error, which changes nothing. -/
def osRemove (fs : FS) (ok : Bool) (name : String) : Option FS :=
  match fs name with
  | none => none
  | some _ => if ok then some (fs.set name none) else none

/-- `os.RemoveAll(path)` when it succeeds: nothing is left at or below `path`. -/
def osRemoveAll (fs : FS) (path : String) : FS :=
  fun q => if isUnder path q then none else fs q

/-- One call into the operating system made by the update code. -/
inductive Step where
  | mkdirTemp
  | httpGet (url : String)
  | create (name : String)
  | copy (dst : String)
  | open (name : String)
  | extract (tarPath : String)
  | rename (oldpath newpath : String)
  | chmod (name : String)
  | remove (name : String)
  | removeAll (path : String)
deriving DecidableEq, Repr

/-- The errors `UpdateGcool` and `downloadAndInstall` return, by the place
that produces them; `indexPanic` is a run-time panic in `contains`. -/
inductive UpdateError where
  | parseCurrent
  | fetchLatest
  | noReleases
  | parseLatest
  | executablePath
  | noAsset
  | tempDir
  | download
  | extract
  | copyFile
  | backup
  | installNewBinary
  | makeExecutable
  | indexPanic
deriving DecidableEq, Repr

/-- The outcome of the operating-system calls of `downloadAndInstall`, one
field per call site. -/
structure Env where
  /-- The result of `os.MkdirTemp("", "gcool-update-")`: the new directory, or `none` for an error. -/
  mkdirTemp : Option String
  /-- The answer to the GET request of `downloadFile`: `none` for a request or
  transport error, else the status code and the body. -/
  httpGet : String → Option (Nat × List Nat)
  /-- Whether `os.Create` in `downloadFile` succeeds. -/
  downloadCreateOk : Bool
  /-- The call `io.Copy` in `downloadFile`: `none` when it completes, `some k` when it
  fails after writing `k` bytes. -/
  downloadCopyErr : Option Nat
  /-- Whether the environment lets `os.Rename(exePath, backup)` succeed. -/
  backupRenameOk : Bool
  /-- Whether the environment lets `os.Open(src)` in `copyFile` succeed. -/
  swapOpenOk : Bool
  /-- Whether `os.Create(dst)` in `copyFile` succeeds. -/
  swapCreateOk : Bool
  /-- The call `io.Copy` in `copyFile`: `none` when it completes, `some k` when it
  fails after writing `k` bytes. -/
  swapCopyErr : Option Nat
  /-- Whether the environment lets `os.Chmod(exePath, 0755)` succeed. -/
  chmodOk : Bool
  /-- Whether the environment lets the restoring `os.Rename(backup, exePath)` succeed. -/
  restoreRenameOk : Bool
  /-- Whether the environment lets `os.Remove(backup)` succeed. -/
  removeBackupOk : Bool
  /-- Whether the deferred `os.RemoveAll(tmpDir)` succeeds. -/
  removeAllOk : Bool

/-- What a run of file-system code leaves behind: the error returned (`none`
for `nil`), the file system at return, and every call made, in order, each
with the file system right after it. -/
structure Run where
  err : Option UpdateError
  fs : FS
  trace : List (Step × FS)

/-! ## internal/update/update.go: the functions -/

/-- The function `downloadFile` of `update.go` (lines 189-216). A request or transport
error, a status other than 200 and a failed `os.Create` leave the file system
as it was; a failed `io.Copy` leaves the bytes written so far. -/
def downloadFile (env : Env) (fs : FS) (url filePath : String) : Run :=
  match env.httpGet url with
  | none => ⟨some UpdateError.download, fs, [(Step.httpGet url, fs)]⟩
  | some (status, body) =>
    if status ≠ 200 then
      ⟨some UpdateError.download, fs, [(Step.httpGet url, fs)]⟩
    else if env.downloadCreateOk = false then
      ⟨some UpdateError.download, fs, [(Step.httpGet url, fs), (Step.create filePath, fs)]⟩
    else
      let fs1 := osCreate fs filePath
      match env.downloadCopyErr with
      | some k =>
        let fs2 := osWrite fs1 filePath (body.take k)
        ⟨some UpdateError.download, fs2,
          [(Step.httpGet url, fs), (Step.create filePath, fs1), (Step.copy filePath, fs2)]⟩
      | none =>
        let fs2 := osWrite fs1 filePath body
        ⟨none, fs2,
          [(Step.httpGet url, fs), (Step.create filePath, fs1), (Step.copy filePath, fs2)]⟩

/-- The function `extractBinary` of `update.go` (lines 219-226): it touches no file and
returns `filepath.Join(destDir, "gcool"), nil`. -/
def extractBinary (_tarPath destDir : String) : String × Option UpdateError :=
  (filepathJoin destDir "gcool", none)

/-- The function `copyFile` of `update.go` (lines 229-247). `os.Open(src)` fails when
there is no file at `src` (or the environment refuses); `os.Create(dst)`
truncates or creates `dst`; `io.Copy` then writes the bytes of the opened
source (none are left if `dst` is the file just truncated), all of them or, on
an error, the first `k`. -/
def copyFile (openOk createOk : Bool) (copyErr : Option Nat) (fs : FS) (src dst : String) : Run :=
  match fs src with
  | none => ⟨some UpdateError.copyFile, fs, [(Step.open src, fs)]⟩
  | some source =>
    if openOk = false then
      ⟨some UpdateError.copyFile, fs, [(Step.open src, fs)]⟩
    else if createOk = false then
      ⟨some UpdateError.copyFile, fs, [(Step.open src, fs), (Step.create dst, fs)]⟩
    else
      let fs1 := osCreate fs dst
      let data := if dst = src then [] else source.content
      match copyErr with
      | some k =>
        let fs2 := osWrite fs1 dst (data.take k)
        ⟨some UpdateError.copyFile, fs2,
          [(Step.open src, fs), (Step.create dst, fs1), (Step.copy dst, fs2)]⟩
      | none =>
        let fs2 := osWrite fs1 dst data
        ⟨none, fs2, [(Step.open src, fs), (Step.create dst, fs1), (Step.copy dst, fs2)]⟩

/-- Lines 135-171 of `downloadAndInstall`: everything after the temporary
directory exists and before the deferred `os.RemoveAll(tmpDir)` runs. The
results of the restoring `os.Rename(backup, exePath)` (lines 157 and 164, of
which a run makes at most one) and of `os.Remove(backup)` are discarded, as in
the source. -/
def installSteps (env : Env) (fs : FS) (assetURL tmpDir exePath : String) : Run :=
  let tmpFile := filepathJoin tmpDir "gcool.tar.gz"
  let d := downloadFile env fs assetURL tmpFile
  match d.err with
  | some e => ⟨some e, d.fs, d.trace⟩
  | none =>
    match extractBinary tmpFile tmpDir with
    | (_, some e) => ⟨some e, d.fs, d.trace ++ [(Step.extract tmpFile, d.fs)]⟩
    | (extractedPath, none) =>
      let t1 := d.trace ++ [(Step.extract tmpFile, d.fs)]
      let backup := exePath ++ ".backup"
      match osRename d.fs env.backupRenameOk exePath backup with
      | none => ⟨some UpdateError.backup, d.fs, t1 ++ [(Step.rename exePath backup, d.fs)]⟩
      | some fs2 =>
        let t2 := t1 ++ [(Step.rename exePath backup, fs2)]
        let c := copyFile env.swapOpenOk env.swapCreateOk env.swapCopyErr fs2 extractedPath exePath
        match c.err with
        | some _ =>
          let fs3 := (osRename c.fs env.restoreRenameOk backup exePath).getD c.fs
          ⟨some UpdateError.installNewBinary, fs3,
            t2 ++ c.trace ++ [(Step.rename backup exePath, fs3)]⟩
        | none =>
          match osChmod c.fs env.chmodOk exePath 0o755 with
          | none =>
            let fs4 := (osRename c.fs env.restoreRenameOk backup exePath).getD c.fs
            ⟨some UpdateError.makeExecutable, fs4,
              t2 ++ c.trace ++ [(Step.chmod exePath, c.fs), (Step.rename backup exePath, fs4)]⟩
          | some fs4 =>
            let fs5 := (osRemove fs4 env.removeBackupOk backup).getD fs4
            ⟨none, fs5, t2 ++ c.trace ++ [(Step.chmod exePath, fs4), (Step.remove backup, fs5)]⟩

/-- The function `downloadAndInstall` of `update.go` (lines 121-172), with the deferred
`os.RemoveAll(tmpDir)` as the last call of every run that created the
directory. -/
def downloadAndInstall (env : Env) (fs : FS) (release : Release) (exePath : String) : Run :=
  match findAssetURL release with
  | none => ⟨some UpdateError.indexPanic, fs, []⟩
  | some assetURL =>
    if assetURL = "" then
      ⟨some UpdateError.noAsset, fs, []⟩
    else
      match env.mkdirTemp with
      | none => ⟨some UpdateError.tempDir, fs, [(Step.mkdirTemp, fs)]⟩
      | some tmpDir =>
        let r := installSteps env fs assetURL tmpDir exePath
        let fsEnd := if env.removeAllOk then osRemoveAll r.fs tmpDir else r.fs
        ⟨r.err, fsEnd, (Step.mkdirTemp, fs) :: r.trace ++ [(Step.removeAll tmpDir, fsEnd)]⟩

/-- Lines 54-58 of `UpdateGcool`: one leading `v` is dropped from the tag. -/
def stripLeadingV (tagName : String) : String :=
  match tagName.data with
  | 'v' :: rest => String.mk rest
  | _ => tagName

/-- What `UpdateGcool` gets from outside `update.go`: the version library
(`gover.NewVersion`, `GreaterThan`) over its version values `V`, the result of
`fetchLatestRelease` (`none` for an error, `some none` for a nil release), the
result of `os.Executable`, and the outcomes of the calls of `downloadAndInstall`. -/
structure UpdateEnv (V : Type) where
  NewVersion : String → Option V
  GreaterThan : V → V → Bool
  fetchLatestRelease : Option (Option Release)
  Executable : Option String
  sys : Env

/-- What a call of `UpdateGcool` leaves behind: the error returned, the file
system, the operating-system calls made, and what was printed on standard
output. -/
structure UpdateResult where
  err : Option UpdateError
  fs : FS
  trace : List (Step × FS)
  stdout : List String

/-- The function `UpdateGcool` of `update.go` (lines 35-86). -/
def UpdateGcool {V : Type} (env : UpdateEnv V) (fs : FS) (currentVersion : String) :
    UpdateResult :=
  match env.NewVersion currentVersion with
  | none => ⟨some UpdateError.parseCurrent, fs, [], []⟩
  | some current =>
    match env.fetchLatestRelease with
    | none => ⟨some UpdateError.fetchLatest, fs, [], []⟩
    | some none => ⟨some UpdateError.noReleases, fs, [], []⟩
    | some (some latestRelease) =>
      let releaseVersion := stripLeadingV latestRelease.TagName
      match env.NewVersion releaseVersion with
      | none => ⟨some UpdateError.parseLatest, fs, [], []⟩
      | some latestVer =>
        if env.GreaterThan latestVer current = false then
          ⟨none, fs, [], ["gcool is already up to date (version " ++ currentVersion ++ ")\n"]⟩
        else
          match env.Executable with
          | none => ⟨some UpdateError.executablePath, fs, [], []⟩
          | some exe =>
            let updating :=
              "Updating gcool from " ++ currentVersion ++ " to " ++ latestRelease.TagName ++ "...\n"
            let r := downloadAndInstall env.sys fs latestRelease exe
            match r.err with
            | some e => ⟨some e, r.fs, r.trace, [updating]⟩
            | none =>
              ⟨none, r.fs, r.trace,
                [updating, "✓ Successfully updated to " ++ latestRelease.TagName ++ "\n"]⟩

/-- A stand-in for `gover.NewVersion` on plain dotted decimal versions (the
library is not part of the repository): the numeric segments, or `none` when a
segment is empty or holds a character that is no digit. It serves to evaluate
`UpdateGcool` at concrete version strings. -/
def dottedNewVersion (v : String) : Option (List Nat) :=
  let segments := v.data.splitOn '.'
  if segments.all (fun seg => !seg.isEmpty && seg.all Char.isDigit) then
    some (segments.map (fun seg => seg.foldl (fun n c => 10 * n + (c.toNat - 48)) 0))
  else
    none

/-- A stand-in for `GreaterThan` of the version library on numeric segments:
segment by segment, a missing segment counting as zero. -/
def dottedGreaterThan : List Nat → List Nat → Bool
  | [], _ => false
  | a :: as, [] => decide (0 < a) || dottedGreaterThan as []
  | a :: as, b :: bs =>
    if b < a then true else if a < b then false else dottedGreaterThan as bs

/-- Whether a call belongs to the steps that come before the Backup rename:
creating the temporary directory, the GET request, creating and filling a
file other than the executable (the downloaded archive), and `extractBinary`. -/
def beforeBackup (exePath : String) : Step → Bool
  | Step.mkdirTemp => true
  | Step.httpGet _ => true
  | Step.extract _ => true
  | Step.create name => name != exePath
  | Step.copy dst => dst != exePath
  | _ => false

/-- The property the specification states for the canonical path in a state
`s`: it holds the complete original executable, or the complete new one (a
file with exactly the bytes of `payload`, the file `extractBinary` names). -/
def HoldsOldOrNew (orig : File) (payload : Option File) (exePath : String) (s : FS) : Prop :=
  s exePath = some orig ∨
    (payload.isSome = true ∧ (s exePath).map File.content = payload.map File.content)

/-- The property the code keeps: the canonical path holds the complete original
or the complete new executable, or the complete original is at the backup path. -/
def OriginalKept (orig : File) (payload : Option File) (exePath : String) (s : FS) : Prop :=
  HoldsOldOrNew orig payload exePath s ∨ s (exePath ++ ".backup") = some orig

instance (orig : File) (payload : Option File) (exePath : String) (s : FS) :
    Decidable (HoldsOldOrNew orig payload exePath s) := by
  unfold HoldsOldOrNew
  infer_instance

instance (orig : File) (payload : Option File) (exePath : String) (s : FS) :
    Decidable (OriginalKept orig payload exePath s) := by
  unfold OriginalKept
  infer_instance

/-! ## Concrete inputs -/

/-- A release `v0.2.0` with one archive asset. -/
def sampleRelease : Release :=
  ⟨"v0.2.0", "gcool 0.2.0",
    [⟨"gcool_0.2.0_linux_amd64.tar.gz", "", "https://example.org/gcool_0.2.0_linux_amd64.tar.gz"⟩]⟩

/-- The installed executable of the sample file system. -/
def sampleOld : File := ⟨[1, 2, 3], 0o755⟩

/-- A file system whose only file is the executable `/usr/local/bin/gcool`. -/
def sampleFS : FS := fun p => if p = "/usr/local/bin/gcool" then some sampleOld else none

/-- An environment in which every operating-system call succeeds; the
temporary directory is `/tmp/gcool-update-1` and the download answers 200
with a four-byte body. -/
def allOk : Env where
  mkdirTemp := some "/tmp/gcool-update-1"
  httpGet := fun _ => some (200, [9, 9, 9, 9])
  downloadCreateOk := true
  downloadCopyErr := none
  backupRenameOk := true
  swapOpenOk := true
  swapCreateOk := true
  swapCopyErr := none
  chmodOk := true
  restoreRenameOk := true
  removeBackupOk := true
  removeAllOk := true

/-- As `allOk`, except that the restoring `os.Rename(backup, exePath)` fails. -/
def restoreFails : Env := { allOk with restoreRenameOk := false }

/-- Line 20 of `main.go`: `const version = "0.1.0"`, which `handleUpdate` passes
to `UpdateGcool`. -/
def version : String := "0.1.0"

/-- The environment of `UpdateGcool` in which the latest release is tagged
`v0.1.0`, versions are read by the dotted-decimal stand-in, and every
operating-system call would succeed. -/
def sameVersionEnv : UpdateEnv (List Nat) where
  NewVersion := dottedNewVersion
  GreaterThan := dottedGreaterThan
  fetchLatestRelease := some (some ⟨"v0.1.0", "v0.1.0", []⟩)
  Executable := some "/usr/local/bin/gcool"
  sys := allOk

/-! ## tui: the modal engine

Only `tui/update_test.go` is among the sources; the handlers it calls are
modelled from the specification (sections 3, 4.1 and 4.2) and from what the
tests assert about them. -/

/-- Modelled from the spec: the type of `Model.modal`, which is declared outside
the sources at hand. `noModal`, `branchSelectModal` and `sessionListModal` are the
constants the tests use; the other two are variants that section 3 names. -/
inductive modalType where
  | noModal
  | branchSelectModal
  | newBranchModal
  | confirmDeleteModal
  | sessionListModal
deriving DecidableEq, Repr

/-- Modelled from the spec: the struct `session.Session`, declared outside the
sources at hand; the tests set its name. -/
structure Session where
  Name : String
deriving DecidableEq, Repr

/-- Modelled from the spec: the struct `tui.Model`, declared outside the sources
at hand, with the fields that the tests set or read. `searchInput` is the
value of the text input (`searchInput.Value()`), the search buffer of
section 4.1. -/
structure Model where
  width : Int
  height : Int
  modal : modalType
  branches : List String
  filteredBranches : List String
  branchIndex : Int
  modalFocused : Int
  searchInput : String
  sessions : List Session
  sessionIndex : Int
deriving DecidableEq, Repr

/-- The function `setupTestModel` of `update_test.go` (lines 384-390); the fields it
does not set have Go's zero values. -/
def setupTestModel : Model :=
  { width := 80, height := 24, modal := modalType.noModal, branches := [],
    filteredBranches := [], branchIndex := 0, modalFocused := 0, searchInput := "",
    sessions := [], sessionIndex := 0 }

/-- A key event `tea.KeyMsg` as the tests build it: by its `Type`, with the
`Runes` for `KeyRunes`. -/
inductive KeyMsg where
  | KeyUp
  | KeyDown
  | KeyEnter
  | KeyEsc
  | KeyTab
  | KeyRunes (runes : List Char)
  | KeyOther
deriving DecidableEq, Repr

/-- A callback invocation made by a modal handler. -/
inductive Call where
  /-- The call `onConfirm(m, item)` of a search-based modal. -/
  | confirm (item : String)
  /-- The call `onConfirm(m)` of a list-selection modal. -/
  | confirmList
  /-- The call `onCustomKey(m, key)` of a list-selection modal. -/
  | customKey (key : String)
deriving DecidableEq, Repr

/-- What a handler returns (the next model) together with the callbacks it
invoked, in order. The returned `tea.Cmd` is not modelled. -/
structure Handled where
  model : Model
  calls : List Call

/-- Modelled from the spec: the struct `searchModalConfig`, declared outside the
sources at hand, as the tests build it: the confirm callback of section 4.1. -/
structure searchModalConfig where
  onConfirm : Model → String → Model

/-- Modelled from the spec: the struct `listSelectionConfig`, declared outside the
sources at hand, as the tests build it and section 4.2 lists it.
`getCurrentIndex` is a closure without arguments; the mutators,
`func(m *Model)` in Go, return the changed model; `onCustomKey` is optional. -/
structure listSelectionConfig where
  getCurrentIndex : Unit → Int
  getItemCount : Model → Int
  incrementIndex : Model → Model
  decrementIndex : Model → Model
  onConfirm : Model → Model
  onCustomKey : Option (Model → String → Model)

/-- Modelled from the spec: the re-clamping of the selection index of section 3,
"re-clamped to `[0, len(filtered)-1]` (or left at 0 if empty) whenever the
filter changes"; the function that does it is not among the sources. -/
def clampIndex (i : Int) (n : Nat) : Int :=
  if n = 0 then 0 else if i < 0 then 0 else if (n : Int) ≤ i then (n : Int) - 1 else i

/-- Modelled from the spec: the filtered candidate list of section 3, "recomputed
deterministically from the full candidate list and the search buffer", an
order-preserving subsequence of the candidates. The matching rule is not
specified and the function is not among the sources, so the rule is the
parameter `matcher`. -/
def filterBranches (matcher : String → String → Bool) (query : String)
    (branches : List String) : List String :=
  branches.filter (matcher query)

/-- Modelled from the spec: the currently highlighted item of a search-based
modal, the entry of the filtered list at the selection index, if there is
one (the accessor is not among the sources). -/
def selectedBranch (m : Model) : Option String :=
  if 0 ≤ m.branchIndex then m.filteredBranches[m.branchIndex.toNat]? else none

/-- Modelled from the spec: the method `handleSearchBasedModalInput`, whose body is
not among the sources (only its tests are), after section 4.1.
* Esc closes the modal without a callback.
* Tab moves the focus to the next of the four targets, wrapping.
* Enter on the cancel button (focus 3) closes the modal without a callback; on
  the primary button (2) or the list (1), with an item highlighted, it invokes
  `onConfirm` with that item, then closes the modal and discards the search
  buffer and the filtered list; with nothing highlighted it does nothing.
* Down moves the focus from the search input (0) to the list (1); in the list
  it advances the cursor by one, stopping at `len(filtered)-1`.
* Up in the list at index 0 moves the focus to the search input; elsewhere in
  the list it moves the cursor back by one.
* A typed character, with the focus on the list or the search input, is
  appended to the search buffer, the filtered list is recomputed, the
  selection index is re-clamped and the focus is on the search input.
Where section 4.1 names no transition the model is returned unchanged. -/
def handleSearchBasedModalInput (matcher : String → String → Bool) (m : Model) (msg : KeyMsg)
    (config : searchModalConfig) : Handled :=
  match msg with
  | KeyMsg.KeyEsc => ⟨{ m with modal := modalType.noModal }, []⟩
  | KeyMsg.KeyTab => ⟨{ m with modalFocused := (m.modalFocused + 1) % 4 }, []⟩
  | KeyMsg.KeyEnter =>
    if m.modalFocused = 3 then
      ⟨{ m with modal := modalType.noModal }, []⟩
    else if m.modalFocused = 2 ∨ m.modalFocused = 1 then
      match selectedBranch m with
      | some item =>
        ⟨{ config.onConfirm m item with
            modal := modalType.noModal, searchInput := "", filteredBranches := [] },
          [Call.confirm item]⟩
      | none => ⟨m, []⟩
    else
      ⟨m, []⟩
  | KeyMsg.KeyDown =>
    if m.modalFocused = 0 then
      ⟨{ m with modalFocused := 1 }, []⟩
    else if m.modalFocused = 1 then
      if m.branchIndex < (m.filteredBranches.length : Int) - 1 then
        ⟨{ m with branchIndex := m.branchIndex + 1 }, []⟩
      else
        ⟨m, []⟩
    else
      ⟨m, []⟩
  | KeyMsg.KeyUp =>
    if m.modalFocused = 1 then
      if 0 < m.branchIndex then
        ⟨{ m with branchIndex := m.branchIndex - 1 }, []⟩
      else
        ⟨{ m with modalFocused := 0 }, []⟩
    else
      ⟨m, []⟩
  | KeyMsg.KeyRunes runes =>
    if m.modalFocused = 1 ∨ m.modalFocused = 0 then
      let value := m.searchInput ++ String.mk runes
      let filtered := filterBranches matcher value m.branches
      ⟨{ m with
          searchInput := value, filteredBranches := filtered,
          branchIndex := clampIndex m.branchIndex filtered.length, modalFocused := 0 }, []⟩
    else
      ⟨m, []⟩
  | KeyMsg.KeyOther => ⟨m, []⟩

/-- Modelled from the spec: the method `handleListSelectionModalInput`, whose body
is not among the sources (only its tests are), after section 4.2: Up and Down
call `decrementIndex` and `incrementIndex` ("the engine does not re-clamp,
boundary enforcement is the mutator's contract"), Enter invokes `onConfirm`
and then closes the modal, Esc closes it without a callback, a typed key goes
to `onCustomKey` when one is registered (the engine does not close the modal
then), other keys are ignored. -/
def handleListSelectionModalInput (m : Model) (msg : KeyMsg) (config : listSelectionConfig) :
    Handled :=
  match msg with
  | KeyMsg.KeyEsc => ⟨{ m with modal := modalType.noModal }, []⟩
  | KeyMsg.KeyEnter => ⟨{ config.onConfirm m with modal := modalType.noModal }, [Call.confirmList]⟩
  | KeyMsg.KeyUp => ⟨config.decrementIndex m, []⟩
  | KeyMsg.KeyDown => ⟨config.incrementIndex m, []⟩
  | KeyMsg.KeyRunes runes =>
    match config.onCustomKey with
    | some onCustomKey => ⟨onCustomKey m (String.mk runes), [Call.customKey (String.mk runes)]⟩
    | none => ⟨m, []⟩
  | _ => ⟨m, []⟩

/-- The `searchModalConfig` of the tests: `onConfirm` returns the model it is given. -/
def testSearchConfig : searchModalConfig :=
  { onConfirm := fun m _ => m }

/-- The `listSelectionConfig` of the tests (lines 214-222), built over the model `m`
that its `getCurrentIndex` closure captures: plain, unguarded mutators. -/
def testListConfig (m : Model) : listSelectionConfig :=
  { getCurrentIndex := fun _ => m.sessionIndex
    getItemCount := fun m => (m.sessions.length : Int)
    incrementIndex := fun m => { m with sessionIndex := m.sessionIndex + 1 }
    decrementIndex := fun m => { m with sessionIndex := m.sessionIndex - 1 }
    onConfirm := fun m => m
    onCustomKey := none }

/-- The model after a sequence of key presses in a search-based modal. -/
def pressSearchKeys (matcher : String → String → Bool) (config : searchModalConfig) :
    Model → List KeyMsg → Model
  | m, [] => m
  | m, k :: ks =>
    pressSearchKeys matcher config (handleSearchBasedModalInput matcher m k config).model ks

/-- A `listSelectionConfig` whose mutators keep the contract of section 4.2: they
saturate at 0 and at `count-1` themselves. The rest is as in the tests. -/
def saturatingListConfig (m : Model) : listSelectionConfig :=
  { testListConfig m with
    incrementIndex := fun m =>
      if m.sessionIndex < (m.sessions.length : Int) - 1 then
        { m with sessionIndex := m.sessionIndex + 1 }
      else m
    decrementIndex := fun m =>
      if 0 < m.sessionIndex then { m with sessionIndex := m.sessionIndex - 1 } else m }

/-- A key press that is Up or Down. -/
def isUpDown (k : KeyMsg) : Bool :=
  k = KeyMsg.KeyUp || k = KeyMsg.KeyDown

/-- The model of `TestSearchBasedModalInput_EnterConfirm`: two candidates, index 0,
focus on the action button. -/
def enterConfirmModel : Model :=
  { setupTestModel with
    modal := modalType.branchSelectModal, branches := ["main", "develop"],
    filteredBranches := ["main", "develop"], branchIndex := 0, modalFocused := 2 }

/-- The model of `TestSearchBasedModalInput_NavigateUp`, also that of end-to-end
scenario 1: three candidates, index 2, focus on the list. -/
def navigateUpModel : Model :=
  { setupTestModel with
    modal := modalType.branchSelectModal, branches := ["main", "develop", "feature/test"],
    filteredBranches := ["main", "develop", "feature/test"], branchIndex := 2,
    modalFocused := 1 }

/-- The model of `TestSearchBasedModalInput_NavigateDown`: three candidates, index 0,
focus on the list. -/
def navigateDownModel : Model :=
  { navigateUpModel with branchIndex := 0 }

/-- The model of `TestListSelectionModalInput_BoundaryCheck_Down`: two sessions,
index 1. -/
def boundaryDownModel : Model :=
  { setupTestModel with sessions := [⟨"session1"⟩, ⟨"session2"⟩], sessionIndex := 1 }

/-- The model of `TestListSelectionModalInput_BoundaryCheck_Up`: two sessions,
index 0. -/
def boundaryUpModel : Model :=
  { setupTestModel with sessions := [⟨"session1"⟩, ⟨"session2"⟩], sessionIndex := 0 }

/-- The model of `TestSearchBasedModalInput_TypeToSearch`: four candidates, an empty
search input, focus on the list. -/
def typeToSearchModel : Model :=
  { setupTestModel with
    modal := modalType.branchSelectModal,
    branches := ["main", "develop", "feature/test", "hotfix/bug"],
    filteredBranches := ["main", "develop", "feature/test", "hotfix/bug"],
    modalFocused := 1, searchInput := "" }

/-- A matching rule to evaluate the search modal with: a candidate matches when
the query occurs in it (`contains` of `update.go`, a panic counting as no match). -/
def substringMatcher (query candidate : String) : Bool :=
  (contains candidate query).getD false

/-- The condition the specification puts on an asset, in its own words: the
download URL is non-empty and the name has `.tar.gz` as a contiguous
substring. -/
def isTarGzAsset (asset : Asset) : Bool :=
  decide (asset.BrowserDownloadURL ≠ "") && decide (".tar.gz".data <:+: asset.Name.data)

/-- The result the specification states for `findAssetURL`, in its own words:
the download URL of the first asset, in list order, that satisfies
`isTarGzAsset`, and the empty string when there is none. -/
def firstTarGzURL (release : Release) : String :=
  match release.Assets.find? isTarGzAsset with
  | some asset => asset.BrowserDownloadURL
  | none => ""

/-- The archive suffix of a platform, after the asset name the comment in
`findAssetURL` gives (line 177, `gcool_0.1.0_linux_amd64.tar.gz`): operating
system, architecture, `.tar.gz`. -/
def platformSuffix (goos goarch : String) : String :=
  goos ++ "_" ++ goarch ++ ".tar.gz"

/-- A release with an archive for macOS on arm64 listed before the one for
Linux on amd64. -/
def twoPlatformRelease : Release :=
  ⟨"v0.2.0", "gcool 0.2.0",
    [⟨"gcool_0.2.0_darwin_arm64.tar.gz", "", "https://example.org/gcool_0.2.0_darwin_arm64.tar.gz"⟩,
     ⟨"gcool_0.2.0_linux_amd64.tar.gz", "", "https://example.org/gcool_0.2.0_linux_amd64.tar.gz"⟩]⟩

/-! ## config/scripts.go -/

/-- The struct `ScriptConfig` of `scripts.go`. The Go map `Scripts` is `none` when it
is nil and otherwise the list of its entries, keys pairwise distinct, in the
order in which this run's `range` loop visits them (Go leaves that order
unspecified and varies it between runs). -/
structure ScriptConfig where
  Scripts : Option (List (String × String))
deriving DecidableEq, Repr

/-- The method `GetScriptNames` of `scripts.go` (lines 51-61), on a receiver that is
`none` when the pointer is nil: the names are appended in the order of the
`range` loop and returned as they are. -/
def ScriptConfig.GetScriptNames (s : Option ScriptConfig) : List String :=
  match s with
  | none => []
  | some config =>
    match config.Scripts with
    | none => []
    | some entries => entries.foldl (fun names entry => names ++ [entry.1]) []

/-- A list of names in ascending order, each once: every name comes before
the names after it in the order of Go's `<` on strings (lexicographic on
the characters). -/
def Ascending (names : List String) : Prop :=
  names.Pairwise (fun a b => a.data < b.data)

instance (names : List String) : Decidable (Ascending names) := by
  unfold Ascending
  infer_instance

/-- A configuration with the scripts `test` and `build`, in an iteration order
that visits `test` first. -/
def testBuildConfig : ScriptConfig :=
  ⟨some [("test", "go test ./..."), ("build", "go build")]⟩

/-! ## main.go: shell-integration bootstrap -/

/-- The environment of the process: the pairs of `os.Environ()`. -/
abbrev Environ := List (String × String)

/-- `os.Getenv(key)`: the value of the first pair for `key`, the empty string
when there is none. -/
def osGetenv (env : Environ) (key : String) : String :=
  match env.find? (fun kv => kv.1 == key) with
  | some kv => kv.2
  | none => ""

/-- `os.Setenv(key, value)`: the environment with `key` bound to `value`. -/
def osSetenv (env : Environ) (key value : String) : Environ :=
  (key, value) :: env.filter (fun kv => kv.1 != key)

/-- `filepath.Base(path)` on a Unix path: the last element, trailing slashes
dropped; `.` for the empty path and `/` for a path of slashes only. -/
def filepathBase (path : String) : String :=
  if path = "" then "."
  else
    let stripped := path.data.reverse.dropWhile (fun c => c == '/')
    if stripped = [] then "/"
    else String.mk (stripped.takeWhile (fun c => c != '/')).reverse

/-- `strings.Join(elems, sep)`. -/
def stringsJoin : List String → String → String
  | [], _ => ""
  | [a], _ => a
  | a :: b :: rest, sep => a ++ sep ++ stringsJoin (b :: rest) sep

/-- The fields of `install.Detector` that the bootstrap reads. -/
structure Detector where
  RCFile : String
deriving DecidableEq, Repr

/-- What the bootstrap gets from outside `main.go`: the results of
`install.NewDetector()` (`none` for an error), `detector.IsInstalled()`,
`detector.Install(false)` (whether it returns nil) and `syscall.Exec`
(whether it replaces the process image). -/
structure BootOutcomes where
  NewDetector : Option Detector
  IsInstalled : Bool
  InstallOk : Bool
  ExecOk : Bool
deriving DecidableEq, Repr

/-- What the bootstrap does to the outside world, in order. -/
inductive BootEffect where
  /-- The call `os.Setenv(key, value)`. -/
  | setenv (key value : String)
  /-- A message written with `fmt.Fprintf(os.Stderr, ...)`. -/
  | stderr (msg : String)
  /-- The call `detector.Install(dryRun)`. -/
  | install (dryRun : Bool)
  /-- The call `syscall.Exec(argv0, argv, envv)`. -/
  | exec (argv0 : String) (argv : List String) (envv : Environ)
deriving DecidableEq, Repr

/-- The errors of the bootstrap, by the place that produces them. -/
inductive BootError where
  | createDetector
  | install
  | sourceAndReexec
deriving DecidableEq, Repr

/-- What a run of bootstrap code leaves behind: the environment of the
process, the effects in order, whether `syscall.Exec` has replaced the process
image (the Go code after it then never runs), and the error returned. -/
structure Boot where
  env : Environ
  effects : List BootEffect
  replaced : Bool
  err : Option BootError
deriving DecidableEq, Repr

/-- The command string of `sourceAndReexec` (lines 194 and 197, the same format in
both branches): `fmt.Sprintf("source %s; %s", detector.RCFile, strings.Join(os.Args, " "))`. -/
def sourceCmd (rcFile : String) (args : List String) : String :=
  "source " ++ rcFile ++ "; " ++ stringsJoin args " "

/-- The function `sourceAndReexec` of `main.go` (lines 180-217). -/
def sourceAndReexec (out : BootOutcomes) (env : Environ) (args : List String)
    (detector : Detector) : Boot :=
  let shellPath := if osGetenv env "SHELL" = "" then "/bin/bash" else osGetenv env "SHELL"
  let shellName := filepathBase shellPath
  let cmd :=
    if shellName = "fish" then sourceCmd detector.RCFile args
    else sourceCmd detector.RCFile args
  let call := BootEffect.exec shellPath [shellName, "-c", cmd] env
  if out.ExecOk then ⟨env, [call], true, none⟩
  else ⟨env, [call], false, some BootError.sourceAndReexec⟩

/-- The function `ensureShellIntegration` of `main.go` (lines 139-176). -/
def ensureShellIntegration (out : BootOutcomes) (env : Environ) (args : List String) : Boot :=
  if osGetenv env "GCOOL_SWITCH_FILE" ≠ "" then
    ⟨env, [], false, none⟩
  else
    let env1 := osSetenv env "GCOOL_INIT_ATTEMPTED" "1"
    let guard := BootEffect.setenv "GCOOL_INIT_ATTEMPTED" "1"
    match out.NewDetector with
    | none => ⟨env1, [guard], false, some BootError.createDetector⟩
    | some detector =>
      if out.IsInstalled then
        let r := sourceAndReexec out env1 args detector
        ⟨r.env, guard :: BootEffect.stderr "✓ Activating shell integration...\n" :: r.effects,
          r.replaced, r.err⟩
      else if out.InstallOk = false then
        ⟨env1,
          [guard, BootEffect.stderr "Setting up shell integration...\n", BootEffect.install false],
          false, some BootError.install⟩
      else
        let r := sourceAndReexec out env1 args detector
        ⟨r.env,
          guard :: BootEffect.stderr "Setting up shell integration...\n"
            :: BootEffect.install false :: r.effects,
          r.replaced, r.err⟩

/-- Lines 35-50 of `main`: the automatic bootstrap before the subcommands are
dispatched. `args` is `os.Args`. When `ensureShellIntegration` returns an error
the two warnings are written and `main` goes on. -/
def mainBootstrap (out : BootOutcomes) (env : Environ) (args : List String) : Boot :=
  let shouldCheckInit :=
    match args[1]? with
    | some "init" => false
    | some "version" => false
    | some "help" => false
    | _ => true
  if shouldCheckInit = true ∧ osGetenv env "GCOOL_INIT_ATTEMPTED" = "" then
    let r := ensureShellIntegration out env args
    match r.err with
    | some _ =>
      ⟨r.env,
        r.effects ++
          [BootEffect.stderr "Warning: Could not auto-initialize shell integration\n",
           BootEffect.stderr "You can run 'gcool init' manually to set up shell integration.\n"],
        r.replaced, none⟩
    | none => ⟨r.env, r.effects, r.replaced, none⟩
  else
    ⟨env, [], false, none⟩

/-- Whether an effect is a step of the bootstrap proper: the install or the
re-execution. -/
def isBootstrapStep : BootEffect → Bool
  | BootEffect.install _ => true
  | BootEffect.exec _ _ _ => true
  | _ => false

/-- A process: its environment, its arguments, and what it gets from outside. -/
structure Proc where
  env : Environ
  args : List String
  out : BootOutcomes

/-- The bootstrap of a process. -/
def Proc.boot (p : Proc) : Boot :=
  mainBootstrap p.out p.env p.args

/-- The process `q` runs in the shell that the bootstrap of `p` has put in the
place of `p`: the process image of `p` was replaced by a `syscall.Exec` whose
environment `q` has inherited as far as the guard variable goes. -/
def Reexecs (p q : Proc) : Prop :=
  p.boot.replaced = true ∧
    ∃ argv0 argv envv, BootEffect.exec argv0 argv envv ∈ p.boot.effects ∧
      osGetenv q.env "GCOOL_INIT_ATTEMPTED" = osGetenv envv "GCOOL_INIT_ATTEMPTED"

/-- The words of an unquoted command line: the non-empty pieces between
spaces. -/
def shellWords (line : String) : List String :=
  ((line.data.splitOn ' ').filter (fun w => !w.isEmpty)).map String.mk

/-- An invocation with a path argument that holds a space. -/
def spacedArgs : List String := ["gcool", "-path", "/home/u/my repo"]

/-! ## main.go: subcommand dispatch and `init` -/

/-- The values of the four flags of the `init` subcommand after
`initCmd.Parse(os.Args[2:])` (lines 221-227 of `main.go`). -/
structure InitFlags where
  update : Bool
  remove : Bool
  dryRun : Bool
  shell : String
deriving DecidableEq, Repr

/-- The flags of `gcool init` without further arguments: the defaults of lines
222-225. -/
def defaultInitFlags : InitFlags :=
  { update := false, remove := false, dryRun := false, shell := "" }

/-- What `handleInit` gets from outside `main.go`: the result of
`install.NewDetector()` (`none` for an error) and whether the one call of
`detector.Remove`, `detector.Update` or `detector.Install` returns nil. -/
structure InitOutcomes where
  NewDetector : Option Detector
  CallOk : Bool
deriving DecidableEq, Repr

/-- What `handleInit` does to the outside world, in order. -/
inductive InitEffect where
  /-- A message written with `fmt.Printf`, by its format. -/
  | printf (format : String)
  /-- A message written with `fmt.Fprintf(os.Stderr, ...)`, by its format. -/
  | stderr (format : String)
  /-- The call `detector.Remove(dryRun)`. -/
  | remove (dryRun : Bool)
  /-- The call `detector.Update(dryRun)`. -/
  | update (dryRun : Bool)
  /-- The call `detector.Install(dryRun)`. -/
  | install (dryRun : Bool)
  /-- The call `os.Exit(code)`. -/
  | exit (code : Nat)
deriving DecidableEq, Repr

/-- The function `handleInit` of `main.go` (lines 219-269), after the flags are
parsed: an error of `NewDetector` or an unknown `-shell` value ends the
process with status 1; otherwise the shell and startup file are printed and
exactly one of `Remove`, `Update` and `Install` is called with the dry-run
flag, `Install` when neither `-remove` nor `-update` is given. -/
def handleInit (out : InitOutcomes) (flags : InitFlags) : List InitEffect :=
  match out.NewDetector with
  | none => [InitEffect.stderr "Error: %v\n", InitEffect.exit 1]
  | some _ =>
    if flags.shell ≠ "" ∧ flags.shell ≠ "bash" ∧ flags.shell ≠ "zsh" ∧ flags.shell ≠ "fish" then
      [InitEffect.stderr "Error: unknown shell '%s'\n", InitEffect.exit 1]
    else
      let call :=
        if flags.remove then InitEffect.remove flags.dryRun
        else if flags.update then InitEffect.update flags.dryRun
        else InitEffect.install flags.dryRun
      if out.CallOk then
        [InitEffect.printf "Detected shell: %s\n", InitEffect.printf "RC file: %s\n", call]
      else
        [InitEffect.printf "Detected shell: %s\n", InitEffect.printf "RC file: %s\n", call,
          InitEffect.stderr "Error: %v\n", InitEffect.exit 1]

/-- Where `main` goes after the automatic bootstrap (lines 52-68). -/
inductive Dispatch where
  /-- The process image was replaced by `syscall.Exec`: `main` does not go on. -/
  | replaced
  /-- The call `handleInit()`, with its effects. -/
  | init (effects : List InitEffect)
  /-- The call `handleUpdate()`. -/
  | update
  /-- The version is printed and the process exits with status 0. -/
  | version
  /-- The help is printed and the process exits with status 0. -/
  | help
  /-- No subcommand: the flags are parsed and the dashboard runs. -/
  | dashboard
deriving DecidableEq, Repr

/-- Lines 35-68 of `main`: the automatic bootstrap, then the dispatch on
`os.Args[1]`. -/
def mainDispatch (out : BootOutcomes) (initOut : InitOutcomes) (flags : InitFlags)
    (env : Environ) (args : List String) : Boot × Dispatch :=
  let b := mainBootstrap out env args
  if b.replaced then (b, Dispatch.replaced)
  else
    match args[1]? with
    | some "init" => (b, Dispatch.init (handleInit initOut flags))
    | some "update" => (b, Dispatch.update)
    | some "version" => (b, Dispatch.version)
    | some "help" => (b, Dispatch.help)
    | _ => (b, Dispatch.dashboard)

/-- Outcomes in which a detector for `/home/u/.bashrc` is found, the integration
is not installed yet, and every call succeeds. -/
def freshBootOutcomes : BootOutcomes :=
  { NewDetector := some ⟨"/home/u/.bashrc"⟩, IsInstalled := false, InstallOk := true,
    ExecOk := true }

/-- Outcomes of `handleInit` in which the detector is found and its call succeeds. -/
def initOk : InitOutcomes :=
  { NewDetector := some ⟨"/home/u/.bashrc"⟩, CallOk := true }

/-! ## Theorems -/

/-! ### main.go -/

theorem switchData_data (s : SwitchInfo) :
    (switchData s).data =
      [ '|' ].intercalate [s.Path.data, s.Branch.data, (autoCl s).data, (termOnly s).data] := by
  simp [switchData, List.intercalate, List.intersperse]

theorem pipe_not_mem_autoCl (s : SwitchInfo) : '|' ∉ (autoCl s).data := by
  unfold autoCl; cases s.AutoClaude <;> decide

theorem pipe_not_mem_termOnly (s : SwitchInfo) : '|' ∉ (termOnly s).data := by
  unfold termOnly; cases s.TerminalOnly <;> decide

theorem splitOnPipe_switchData (s : SwitchInfo)
    (hp : '|' ∉ s.Path.data) (hb : '|' ∉ s.Branch.data) :
    splitOnPipe (switchData s) = [s.Path, s.Branch, autoCl s, termOnly s] := by
  unfold splitOnPipe
  rw [switchData_data, List.splitOn_intercalate]
  · simp
  · intro l hl
    simp only [List.mem_cons, List.mem_singleton, List.not_mem_nil, or_false] at hl
    rcases hl with rfl | rfl | rfl | rfl
    · exact hp
    · exact hb
    · exact pipe_not_mem_autoCl s
    · exact pipe_not_mem_termOnly s
  · simp

theorem switchData_injective (s s' : SwitchInfo)
    (hs : '|' ∉ s.Path.data ∧ '|' ∉ s.Branch.data)
    (hs' : '|' ∉ s'.Path.data ∧ '|' ∉ s'.Branch.data)
    (h : switchData s = switchData s') : s = s' := by
  have e := splitOnPipe_switchData s hs.1 hs.2
  rw [h, splitOnPipe_switchData s' hs'.1 hs'.2] at e
  simp only [List.cons.injEq, and_true] at e
  obtain ⟨h1, h2, h3, h4⟩ := e
  cases s with
  | mk p b a t =>
    cases s' with
    | mk p' b' a' t' =>
      simp only at h1 h2
      subst h1 h2
      have ha : a = a' := by
        revert h3
        cases a <;> cases a' <;> simp [autoCl]
      have ht : t = t' := by
        revert h4
        cases t <;> cases t' <;> simp [termOnly]
      subst ha ht
      rfl

theorem emittedLines_mainHandoff (s : SwitchInfo) (getenv : String → String) (w : Bool)
    (hne : s.Path ≠ "") : emittedLines (mainHandoff (some s) getenv w) = [switchData s] := by
  unfold mainHandoff
  simp only [hne, ne_eq, not_false_eq_true, if_true]
  by_cases hf : getenv "GCOOL_SWITCH_FILE" = "" <;> cases w <;> simp [hf, emittedLines]

/-- C1: for a switch directive with a non-empty path whose path and branch hold
no `|`, what `main` emits (to the switch file or to standard output) is the one
line `path|branch|a|t` with `a`, `t` the literals `true`/`false` of the two
flags; splitting it at `|` gives back exactly the four fields, and two such
directives with the same line are the same directive. -/
theorem C1_switch_line_roundtrip (s : SwitchInfo) (getenv : String → String)
    (writeFails : Bool) (hs : WellFormed s) :
    emittedLines (mainHandoff (some s) getenv writeFails)
        = [s.Path ++ "|" ++ s.Branch ++ "|"
            ++ (if s.AutoClaude = true then "true" else "false") ++ "|"
            ++ (if s.TerminalOnly = true then "true" else "false")]
      ∧ splitOnPipe (switchData s)
        = [s.Path, s.Branch, if s.AutoClaude = true then "true" else "false",
            if s.TerminalOnly = true then "true" else "false"]
      ∧ ∀ s' : SwitchInfo, WellFormed s' → switchData s' = switchData s → s' = s := by
  refine ⟨?_, ?_, ?_⟩
  · rw [emittedLines_mainHandoff s getenv writeFails hs.1]
    rfl
  · rw [splitOnPipe_switchData s hs.2.1 hs.2.2]
    rfl
  · intro s' hs' h
    exact switchData_injective s' s hs'.2 hs.2 h

/-- C1 at the directive `/repo/wt`, `feature/x`, auto-launch on, terminal-only off. -/
theorem C1_switch_line_roundtrip_witness :
    WellFormed ⟨"/repo/wt", "feature/x", true, false⟩
      ∧ emittedLines (mainHandoff (some ⟨"/repo/wt", "feature/x", true, false⟩)
          (fun _ => "") false) = ["/repo/wt|feature/x|true|false"]
      ∧ splitOnPipe "/repo/wt|feature/x|true|false"
          = ["/repo/wt", "feature/x", "true", "false"] :=
  have hw : WellFormed ⟨"/repo/wt", "feature/x", true, false⟩ := by
    refine ⟨by decide, by decide, by decide⟩
  ⟨hw, (C1_switch_line_roundtrip _ (fun _ => "") false hw).1,
    (C1_switch_line_roundtrip _ (fun _ => "") false hw).2.1⟩

/-- C2: the handoff decision of `main`, for every final switch info `s`, every
environment and either outcome of the file write. With an empty `Path` nothing
is written or printed; with a non-empty `Path` and a non-empty
`GCOOL_SWITCH_FILE` the line goes to that file with mode 0600 and nothing is
printed on standard output; with a non-empty `Path` and an empty or unset
variable the line is printed on standard output and no file is written. -/
theorem C2_handoff_decision (s : SwitchInfo) (getenv : String → String) (writeFails : Bool) :
    (s.Path = "" → mainHandoff (some s) getenv writeFails = [])
      ∧ (s.Path ≠ "" → getenv "GCOOL_SWITCH_FILE" ≠ "" →
          filesWritten (mainHandoff (some s) getenv writeFails)
              = [(getenv "GCOOL_SWITCH_FILE", switchData s, 0o600)]
            ∧ stdoutLines (mainHandoff (some s) getenv writeFails) = [])
      ∧ (s.Path ≠ "" → getenv "GCOOL_SWITCH_FILE" = "" →
          mainHandoff (some s) getenv writeFails = [Effect.println (switchData s)]
            ∧ filesWritten (mainHandoff (some s) getenv writeFails) = []) := by
  refine ⟨?_, ?_, ?_⟩
  · intro h
    simp [mainHandoff, h]
  · intro h hf
    cases writeFails <;> simp [mainHandoff, h, hf, filesWritten, stdoutLines]
  · intro h hf
    simp [mainHandoff, h, hf, filesWritten]

/-! ### update.go -/

@[simp] theorem FS.set_same (fs : FS) (p : String) (f : Option File) : (fs.set p f) p = f := by
  simp [FS.set]

@[simp] theorem FS.set_other (fs : FS) (p q : String) (f : Option File) (h : q ≠ p) :
    (fs.set p f) q = fs q := by
  simp [FS.set, h]

theorem osCreate_other (fs : FS) (name q : String) (h : q ≠ name) : osCreate fs name q = fs q := by
  unfold osCreate
  cases fs name <;> simp [h]

theorem osWrite_other (fs : FS) (name q : String) (data : List Nat) (h : q ≠ name) :
    osWrite fs name data q = fs q := by
  unfold osWrite
  cases fs name <;> simp [h]

theorem osCreate_same (fs : FS) (name : String) :
    ∃ m, osCreate fs name name = some ⟨[], m⟩ := by
  unfold osCreate
  cases h : fs name <;> simp

theorem backup_ne_self (exePath : String) : exePath ++ ".backup" ≠ exePath := by
  intro h
  have := congrArg String.length h
  simp at this
  exact absurd this (by decide)

theorem join_ne_backup_targz (d exePath : String) :
    filepathJoin d "gcool.tar.gz" ≠ exePath ++ ".backup" := by
  intro h
  have := congrArg (fun s => s.data.reverse) h
  simp [filepathJoin] at this

theorem join_ne_backup_gcool (d exePath : String) :
    filepathJoin d "gcool" ≠ exePath ++ ".backup" := by
  intro h
  have := congrArg (fun s => s.data.reverse) h
  simp [filepathJoin] at this

theorem join_targz_ne_join_gcool (d : String) :
    filepathJoin d "gcool.tar.gz" ≠ filepathJoin d "gcool" := by
  intro h
  have := congrArg String.length h
  simp [filepathJoin] at this
  exact absurd this (by decide)

theorem isUnder_join (d name : String) : isUnder d (filepathJoin d name) = true := by
  simp [isUnder, filepathJoin, List.isPrefixOf_iff_prefix]


theorem downloadFile_err (env : Env) (fs : FS) (url p : String) :
    (downloadFile env fs url p).err = none ∨
      (downloadFile env fs url p).err = some UpdateError.download := by
  unfold downloadFile
  split
  · simp
  · split_ifs
    · simp
    · simp
    · split <;> simp

theorem downloadFile_fs_other (env : Env) (fs : FS) (url p q : String) (h : q ≠ p) :
    (downloadFile env fs url p).fs q = fs q := by
  unfold downloadFile
  split
  · rfl
  · split_ifs
    · rfl
    · rfl
    · split <;> simp [osWrite_other, osCreate_other, h]

theorem downloadFile_trace_other (env : Env) (fs : FS) (url p q : String) (h : q ≠ p) :
    ∀ e ∈ (downloadFile env fs url p).trace, e.2 q = fs q := by
  unfold downloadFile
  split
  · simp
  · split_ifs
    · simp
    · simp
    · split <;> simp [osWrite_other, osCreate_other, h]

theorem copyFile_fs_other (o c : Bool) (k : Option Nat) (fs : FS) (src dst q : String)
    (h : q ≠ dst) : (copyFile o c k fs src dst).fs q = fs q := by
  unfold copyFile
  cases fs src <;> cases o <;> cases c <;> cases k <;>
    simp [osWrite_other, osCreate_other, h]

theorem copyFile_trace_other (o c : Bool) (k : Option Nat) (fs : FS) (src dst q : String)
    (h : q ≠ dst) : ∀ e ∈ (copyFile o c k fs src dst).trace, e.2 q = fs q := by
  unfold copyFile
  cases fs src <;> cases o <;> cases c <;> cases k <;>
    simp [osWrite_other, osCreate_other, h]

theorem copyFile_absent (o c : Bool) (k : Option Nat) (fs : FS) (src dst : String)
    (h : fs src = none) : (copyFile o c k fs src dst).err = some UpdateError.copyFile := by
  unfold copyFile
  simp [h]

theorem copyFile_err (o c : Bool) (k : Option Nat) (fs : FS) (src dst : String) :
    (copyFile o c k fs src dst).err = none ∨
      (copyFile o c k fs src dst).err = some UpdateError.copyFile := by
  unfold copyFile
  cases fs src <;> cases o <;> cases c <;> cases k <;> simp

theorem copyFile_ok (o c : Bool) (k : Option Nat) (fs : FS) (src dst : String)
    (hne : dst ≠ src) (h : (copyFile o c k fs src dst).err = none) :
    ∃ payload m, fs src = some payload ∧
      (copyFile o c k fs src dst).fs dst = some ⟨payload.content, m⟩ := by
  obtain ⟨m, hm⟩ := osCreate_same fs dst
  unfold copyFile at h ⊢
  cases hs : fs src with
  | none => simp [hs] at h
  | some source =>
    refine ⟨source, m, rfl, ?_⟩
    revert h
    cases o <;> cases c <;> cases k <;> simp [hs, hne, osWrite, hm]

theorem osRename_some (fs : FS) (ok : Bool) (a b : String) (fs2 : FS)
    (h : osRename fs ok a b = some fs2) :
    ∃ f, fs a = some f ∧ ok = true ∧ fs2 = (fs.set a none).set b (some f) := by
  unfold osRename at h
  cases hf : fs a with
  | none => simp [hf] at h
  | some f =>
    cases ok
    · simp [hf] at h
    · simp [hf] at h
      exact ⟨f, rfl, rfl, h.symm⟩

theorem restore_exe (fs : FS) (exePath : String) (orig : File)
    (hb : fs (exePath ++ ".backup") = some orig) :
    ((osRename fs true (exePath ++ ".backup") exePath).getD fs) exePath = some orig := by
  simp [osRename, hb]

theorem installSteps_swap_failed (env : Env) (fs : FS) (url d exePath : String)
    (hne : exePath ≠ filepathJoin d "gcool.tar.gz")
    (herr : (installSteps env fs url d exePath).err = some UpdateError.installNewBinary ∨
      (installSteps env fs url d exePath).err = some UpdateError.makeExecutable)
    (hr : env.restoreRenameOk = true) :
    ∃ orig, fs exePath = some orig ∧ (installSteps env fs url d exePath).fs exePath = some orig := by
  unfold installSteps at herr ⊢
  simp only [extractBinary] at herr ⊢
  rcases downloadFile_err env fs url (filepathJoin d "gcool.tar.gz") with hd | hd
  · simp only [hd] at herr ⊢
    cases hren : osRename (downloadFile env fs url (filepathJoin d "gcool.tar.gz")).fs
        env.backupRenameOk exePath (exePath ++ ".backup") with
    | none => simp [hren] at herr
    | some fs2 =>
      obtain ⟨orig, ho, -, hfs2⟩ := osRename_some _ _ _ _ _ hren
      rw [downloadFile_fs_other _ _ _ _ _ hne] at ho
      refine ⟨orig, ho, ?_⟩
      have hb2 : fs2 (exePath ++ ".backup") = some orig := by simp [hfs2]
      simp only [hren] at herr ⊢
      have hcb := copyFile_fs_other env.swapOpenOk env.swapCreateOk env.swapCopyErr fs2
        (filepathJoin d "gcool") exePath (exePath ++ ".backup") (backup_ne_self exePath)
      rw [hb2] at hcb
      rcases copyFile_err env.swapOpenOk env.swapCreateOk env.swapCopyErr fs2
        (filepathJoin d "gcool") exePath with hc | hc
      · simp only [hc] at herr ⊢
        cases hch : osChmod (copyFile env.swapOpenOk env.swapCreateOk env.swapCopyErr fs2
            (filepathJoin d "gcool") exePath).fs env.chmodOk exePath 0o755 with
        | none =>
          simp only [hch, hr]
          exact restore_exe _ _ _ hcb
        | some fs4 => simp [hch] at herr
      · simp only [hc, hr]
        exact restore_exe _ _ _ hcb
  · simp [hd] at herr

theorem osRemoveAll_outside (fs : FS) (d q : String) (h : isUnder d q = false) :
    osRemoveAll fs d q = fs q := by
  simp [osRemoveAll, h]

theorem ne_join_of_outside (d name q : String) (h : isUnder d q = false) :
    q ≠ filepathJoin d name := by
  intro e
  rw [e, isUnder_join] at h
  exact absurd h (by decide)

theorem installSteps_never_nil (env : Env) (fs : FS) (url d exePath : String)
    (hfresh : fs (filepathJoin d "gcool") = none) :
    (installSteps env fs url d exePath).err ≠ none := by
  unfold installSteps
  simp only [extractBinary]
  rcases downloadFile_err env fs url (filepathJoin d "gcool.tar.gz") with hd | hd
  · simp only [hd]
    cases hren : osRename (downloadFile env fs url (filepathJoin d "gcool.tar.gz")).fs
        env.backupRenameOk exePath (exePath ++ ".backup") with
    | none => simp
    | some fs2 =>
      obtain ⟨orig, -, -, hfs2⟩ := osRename_some _ _ _ _ _ hren
      have hx : fs2 (filepathJoin d "gcool") = none := by
        rw [hfs2, FS.set_other _ _ _ _ (join_ne_backup_gcool d exePath)]
        by_cases he : filepathJoin d "gcool" = exePath
        · rw [← he, FS.set_same]
        · rw [FS.set_other _ _ _ _ he,
            downloadFile_fs_other _ _ _ _ _ (join_targz_ne_join_gcool d).symm, hfresh]
      simp [copyFile_absent _ _ _ _ _ _ hx]
  · simp [hd]

theorem installSteps_swap_error (env : Env) (fs : FS) (url d exePath : String) (fs2 : FS)
    (hfresh : fs (filepathJoin d "gcool") = none)
    (hd : (downloadFile env fs url (filepathJoin d "gcool.tar.gz")).err = none)
    (hren : osRename (downloadFile env fs url (filepathJoin d "gcool.tar.gz")).fs
        env.backupRenameOk exePath (exePath ++ ".backup") = some fs2) :
    (installSteps env fs url d exePath).err = some UpdateError.installNewBinary := by
  unfold installSteps
  simp only [extractBinary, hd, hren]
  obtain ⟨orig, -, -, hfs2⟩ := osRename_some _ _ _ _ _ hren
  have hx : fs2 (filepathJoin d "gcool") = none := by
    rw [hfs2, FS.set_other _ _ _ _ (join_ne_backup_gcool d exePath)]
    by_cases he : filepathJoin d "gcool" = exePath
    · rw [← he, FS.set_same]
    · rw [FS.set_other _ _ _ _ he,
        downloadFile_fs_other _ _ _ _ _ (join_targz_ne_join_gcool d).symm, hfresh]
  simp [copyFile_absent _ _ _ _ _ _ hx]

theorem downloadAndInstall_swap_failed (env : Env) (fs : FS) (release : Release)
    (exePath : String)
    (hdir : ∀ d, env.mkdirTemp = some d → isUnder d exePath = false)
    (hswap : (downloadAndInstall env fs release exePath).err = some UpdateError.installNewBinary ∨
      (downloadAndInstall env fs release exePath).err = some UpdateError.makeExecutable)
    (hr : env.restoreRenameOk = true) :
    ∃ orig, fs exePath = some orig ∧
      (downloadAndInstall env fs release exePath).fs exePath = some orig := by
  unfold downloadAndInstall at hswap ⊢
  cases hf : findAssetURL release with
  | none => simp [hf] at hswap
  | some url =>
    simp only [hf] at hswap ⊢
    by_cases hu : url = ""
    · simp [hu] at hswap
    · simp only [hu, if_false] at hswap ⊢
      cases hm : env.mkdirTemp with
      | none => simp [hm] at hswap
      | some d =>
        simp only [hm] at hswap ⊢
        have hout := hdir d hm
        obtain ⟨orig, h1, h2⟩ := installSteps_swap_failed env fs url d exePath
          (ne_join_of_outside d _ exePath hout) hswap hr
        refine ⟨orig, h1, ?_⟩
        cases env.removeAllOk
        · simpa using h2
        · simpa [osRemoveAll_outside _ _ _ hout] using h2

theorem osChmod_some (fs : FS) (ok : Bool) (n : String) (m : Nat) (fs4 : FS)
    (h : osChmod fs ok n m = some fs4) :
    ∃ f, fs n = some f ∧ fs4 = fs.set n (some ⟨f.content, m⟩) := by
  unfold osChmod at h
  cases hf : fs n with
  | none => simp [hf] at h
  | some f =>
    cases ok
    · simp [hf] at h
    · simp [hf] at h
      exact ⟨f, rfl, h.symm⟩

theorem holds_new (orig p : File) (m : Nat) (payload : Option File) (exePath : String)
    (s : FS) (hp : payload = some p) (he : s exePath = some ⟨p.content, m⟩) :
    HoldsOldOrNew orig payload exePath s := by
  right
  simp [hp, he]

theorem restore_kept (fs : FS) (ok : Bool) (exePath : String) (orig : File) (payload : Option File)
    (hb : fs (exePath ++ ".backup") = some orig) :
    OriginalKept orig payload exePath
        ((osRename fs ok (exePath ++ ".backup") exePath).getD fs) ∧
      (ok = true → HoldsOldOrNew orig payload exePath
        ((osRename fs ok (exePath ++ ".backup") exePath).getD fs)) := by
  cases ok
  · refine ⟨Or.inr ?_, fun h => absurd h (by decide)⟩
    simp [osRename, hb]
  · exact ⟨Or.inl (Or.inl (restore_exe fs exePath orig hb)),
      fun _ => Or.inl (restore_exe fs exePath orig hb)⟩

theorem remove_kept (fs : FS) (ok : Bool) (exePath : String) (orig p : File) (m : Nat)
    (payload : Option File) (hp : payload = some p)
    (he : fs exePath = some ⟨p.content, m⟩) :
    HoldsOldOrNew orig payload exePath
      ((osRemove fs ok (exePath ++ ".backup")).getD fs) := by
  apply holds_new orig p m payload exePath _ hp
  unfold osRemove
  cases hb : fs (exePath ++ ".backup") with
  | none => simpa using he
  | some b =>
    cases ok
    · simpa using he
    · simp [FS.set_other _ _ _ _ (backup_ne_self exePath).symm, he]

theorem installSteps_kept (env : Env) (fs : FS) (url d exePath : String) (orig : File)
    (hout : isUnder d exePath = false) (horig : fs exePath = some orig) :
    (∀ e ∈ (installSteps env fs url d exePath).trace,
        OriginalKept orig (fs (filepathJoin d "gcool")) exePath e.2) ∧
      OriginalKept orig (fs (filepathJoin d "gcool")) exePath
        (installSteps env fs url d exePath).fs ∧
      (env.restoreRenameOk = true →
        HoldsOldOrNew orig (fs (filepathJoin d "gcool")) exePath
          (installSteps env fs url d exePath).fs) := by
  have hne : exePath ≠ filepathJoin d "gcool.tar.gz" := ne_join_of_outside d _ exePath hout
  have hneg : exePath ≠ filepathJoin d "gcool" := ne_join_of_outside d _ exePath hout
  have hD := downloadFile_trace_other env fs url _ exePath hne
  have hDfs := downloadFile_fs_other env fs url _ exePath hne
  have old : ∀ s : FS, s exePath = fs exePath →
      HoldsOldOrNew orig (fs (filepathJoin d "gcool")) exePath s :=
    fun s hs => Or.inl (hs.trans horig)
  unfold installSteps
  simp only [extractBinary]
  rcases downloadFile_err env fs url (filepathJoin d "gcool.tar.gz") with hd | hd
  · simp only [hd]
    cases hren : osRename (downloadFile env fs url (filepathJoin d "gcool.tar.gz")).fs
        env.backupRenameOk exePath (exePath ++ ".backup") with
    | none =>
      simp only [List.mem_append, List.mem_singleton]
      refine ⟨?_, Or.inl (old _ hDfs), fun _ => old _ hDfs⟩
      rintro e ((he | rfl) | rfl)
      · exact Or.inl (old _ (hD e he))
      · exact Or.inl (old _ hDfs)
      · exact Or.inl (old _ hDfs)
    | some fs2 =>
      obtain ⟨o2, ho, -, hfs2⟩ := osRename_some _ _ _ _ _ hren
      rw [hDfs, horig] at ho
      cases ho
      have hb2 : fs2 (exePath ++ ".backup") = some orig := by simp [hfs2]
      have hp2 : fs2 (filepathJoin d "gcool") = fs (filepathJoin d "gcool") := by
        rw [hfs2, FS.set_other _ _ _ _ (join_ne_backup_gcool d exePath),
          FS.set_other _ _ _ _ hneg.symm,
          downloadFile_fs_other _ _ _ _ _ (join_targz_ne_join_gcool d).symm]
      have hcfs := copyFile_fs_other env.swapOpenOk env.swapCreateOk env.swapCopyErr fs2
        (filepathJoin d "gcool") exePath (exePath ++ ".backup") (backup_ne_self exePath)
      have hctr := copyFile_trace_other env.swapOpenOk env.swapCreateOk env.swapCopyErr fs2
        (filepathJoin d "gcool") exePath (exePath ++ ".backup") (backup_ne_self exePath)
      rw [hb2] at hcfs
      simp only [hb2] at hctr
      simp only []
      have hres := restore_kept (copyFile env.swapOpenOk env.swapCreateOk env.swapCopyErr fs2
        (filepathJoin d "gcool") exePath).fs env.restoreRenameOk exePath orig
        (fs (filepathJoin d "gcool")) hcfs
      rcases copyFile_err env.swapOpenOk env.swapCreateOk env.swapCopyErr fs2
        (filepathJoin d "gcool") exePath with hc | hc
      · simp only [hc]
        obtain ⟨p, m, hp, hce⟩ := copyFile_ok _ _ _ _ _ _ hneg hc
        rw [hp2] at hp
        cases hch : osChmod (copyFile env.swapOpenOk env.swapCreateOk env.swapCopyErr fs2
            (filepathJoin d "gcool") exePath).fs env.chmodOk exePath 0o755 with
        | none =>
          simp only [List.mem_append, List.mem_singleton, List.mem_cons, List.not_mem_nil,
            or_false]
          refine ⟨?_, hres.1, hres.2⟩
          rintro e ((((he | rfl) | rfl) | he) | rfl | rfl)
          · exact Or.inl (old _ (hD e he))
          · exact Or.inl (old _ hDfs)
          · exact Or.inr hb2
          · exact Or.inr (hctr e he)
          · exact Or.inr hcfs
          · exact hres.1
        | some fs4 =>
          obtain ⟨f, hf, hfs4⟩ := osChmod_some _ _ _ _ _ hch
          rw [hce] at hf
          cases hf
          have hb4 : fs4 (exePath ++ ".backup") = some orig := by
            rw [hfs4, FS.set_other _ _ _ _ (backup_ne_self exePath), hcfs]
          have he4 : fs4 exePath = some ⟨p.content, 0o755⟩ := by
            rw [hfs4, FS.set_same]
          have hrem := remove_kept fs4 env.removeBackupOk exePath orig p 0o755
            (fs (filepathJoin d "gcool")) hp he4
          simp only [List.mem_append, List.mem_singleton, List.mem_cons, List.not_mem_nil,
            or_false]
          refine ⟨?_, Or.inl hrem, fun _ => hrem⟩
          rintro e ((((he | rfl) | rfl) | he) | rfl | rfl)
          · exact Or.inl (old _ (hD e he))
          · exact Or.inl (old _ hDfs)
          · exact Or.inr hb2
          · exact Or.inr (hctr e he)
          · exact Or.inr hb4
          · exact Or.inl hrem
      · simp only [hc]
        simp only [List.mem_append, List.mem_singleton, List.mem_cons, List.not_mem_nil,
          or_false]
        refine ⟨?_, hres.1, hres.2⟩
        rintro e ((((he | rfl) | rfl) | he) | rfl)
        · exact Or.inl (old _ (hD e he))
        · exact Or.inl (old _ hDfs)
        · exact Or.inr hb2
        · exact Or.inr (hctr e he)
        · exact hres.1
  · simp only [hd]
    exact ⟨fun e he => Or.inl (old _ (hD e he)), Or.inl (old _ hDfs), fun _ => old _ hDfs⟩

theorem kept_of_eq (orig : File) (payload : Option File) (exePath : String) (s s' : FS)
    (he : s' exePath = s exePath) (hb : s' (exePath ++ ".backup") = s (exePath ++ ".backup"))
    (h : OriginalKept orig payload exePath s) : OriginalKept orig payload exePath s' := by
  unfold OriginalKept HoldsOldOrNew at *
  rw [he, hb]
  exact h

theorem holds_of_eq (orig : File) (payload : Option File) (exePath : String) (s s' : FS)
    (he : s' exePath = s exePath)
    (h : HoldsOldOrNew orig payload exePath s) : HoldsOldOrNew orig payload exePath s' := by
  unfold HoldsOldOrNew at *
  rw [he]
  exact h

/-- C3: when the current version and the fetched tag (one leading `v` dropped)
both parse and the latest version is not strictly greater than the current
one, `UpdateGcool` returns no error, prints "already up to date", makes no
operating-system call at all (so none of Download, Extract, Backup, Swap) and
leaves the file system as it was. -/
theorem C3_up_to_date_runs_nothing {V : Type} (env : UpdateEnv V) (fs : FS) (c : String)
    (release : Release) (current latest : V)
    (hcur : env.NewVersion c = some current)
    (hfetch : env.fetchLatestRelease = some (some release))
    (hlat : env.NewVersion (stripLeadingV release.TagName) = some latest)
    (hle : env.GreaterThan latest current = false) :
    (UpdateGcool env fs c).err = none
      ∧ (UpdateGcool env fs c).trace = []
      ∧ (UpdateGcool env fs c).fs = fs
      ∧ (UpdateGcool env fs c).stdout
          = ["gcool is already up to date (version " ++ c ++ ")\n"] := by
  unfold UpdateGcool
  simp [hcur, hfetch, hlat, hle]

/-- C3 at current version `0.1.0` and latest tag `v0.1.0`: the tag is read as
`0.1.0`, the two versions compare equal, and the update stops with "already
up to date" without a single operating-system call. -/
theorem C3_up_to_date_runs_nothing_witness :
    version = "0.1.0"
      ∧ stripLeadingV "v0.1.0" = "0.1.0"
      ∧ dottedNewVersion "0.1.0" = some [0, 1, 0]
      ∧ (UpdateGcool sameVersionEnv sampleFS version).err = none
      ∧ (UpdateGcool sameVersionEnv sampleFS version).trace = []
      ∧ (UpdateGcool sameVersionEnv sampleFS version).fs = sampleFS
      ∧ (UpdateGcool sameVersionEnv sampleFS version).stdout
          = ["gcool is already up to date (version 0.1.0)\n"] :=
  ⟨rfl, by decide, by decide,
    C3_up_to_date_runs_nothing sameVersionEnv sampleFS version ⟨"v0.1.0", "v0.1.0", []⟩
      [0, 1, 0] [0, 1, 0] (by decide) rfl (by decide) (by decide)⟩

/-- C4, as amended: if the Swap step fails after the Backup rename (the run
ends with "failed to install new binary" or "failed to make binary
executable", which the code returns only after a successful Backup rename)
and the restoring rename of the backup succeeds, then `downloadAndInstall`
returns an error and the canonical path holds the original executable again,
byte for byte and with its mode. The temporary directory is a new one, so
the executable does not lie in it. -/
theorem C4_rollback_restores_when_rename_succeeds (env : Env) (fs : FS) (release : Release)
    (exePath : String)
    (hdir : ∀ d, env.mkdirTemp = some d → isUnder d exePath = false)
    (hswap : (downloadAndInstall env fs release exePath).err = some UpdateError.installNewBinary ∨
      (downloadAndInstall env fs release exePath).err = some UpdateError.makeExecutable)
    (hrestore : env.restoreRenameOk = true) :
    (downloadAndInstall env fs release exePath).err ≠ none
      ∧ ∃ orig, fs exePath = some orig ∧
          (downloadAndInstall env fs release exePath).fs exePath = some orig := by
  refine ⟨?_, downloadAndInstall_swap_failed env fs release exePath hdir hswap hrestore⟩
  rcases hswap with h | h <;> simp [h]

/-- C4 amended, at the sample file system with every call but `os.Open` of the
unextracted payload succeeding: Swap fails, the backup is renamed back, and
the executable is the original one. -/
theorem C4_rollback_restores_when_rename_succeeds_witness :
    (downloadAndInstall allOk sampleFS sampleRelease "/usr/local/bin/gcool").err
        = some UpdateError.installNewBinary
      ∧ ∃ orig, sampleFS "/usr/local/bin/gcool" = some orig ∧
          (downloadAndInstall allOk sampleFS sampleRelease "/usr/local/bin/gcool").fs
            "/usr/local/bin/gcool" = some orig :=
  ⟨by decide,
    (C4_rollback_restores_when_rename_succeeds allOk sampleFS sampleRelease
      "/usr/local/bin/gcool" (by intro d hd; cases hd; decide) (Or.inl (by decide)) rfl).2⟩

/-- C4 as stated fails: in the sample file system the Backup rename succeeds
(the state right after it has the original at the backup path), Swap fails and
the restoring rename fails too; its error is discarded, `downloadAndInstall`
returns "failed to install new binary", and nothing is at the canonical path. -/
theorem C4_counterexample_restore_rename_fails :
    sampleFS "/usr/local/bin/gcool" = some sampleOld
      ∧ (downloadAndInstall restoreFails sampleFS sampleRelease "/usr/local/bin/gcool").err
          = some UpdateError.installNewBinary
      ∧ ((downloadAndInstall restoreFails sampleFS sampleRelease "/usr/local/bin/gcool").trace.map
            (fun e => (e.1, e.2 "/usr/local/bin/gcool", e.2 "/usr/local/bin/gcool.backup")))
          = [(Step.mkdirTemp, some sampleOld, none),
             (Step.httpGet "https://example.org/gcool_0.2.0_linux_amd64.tar.gz", some sampleOld, none),
             (Step.create "/tmp/gcool-update-1/gcool.tar.gz", some sampleOld, none),
             (Step.copy "/tmp/gcool-update-1/gcool.tar.gz", some sampleOld, none),
             (Step.extract "/tmp/gcool-update-1/gcool.tar.gz", some sampleOld, none),
             (Step.rename "/usr/local/bin/gcool" "/usr/local/bin/gcool.backup", none, some sampleOld),
             (Step.open "/tmp/gcool-update-1/gcool", none, some sampleOld),
             (Step.rename "/usr/local/bin/gcool.backup" "/usr/local/bin/gcool", none, some sampleOld),
             (Step.removeAll "/tmp/gcool-update-1", none, some sampleOld)]
      ∧ (downloadAndInstall restoreFails sampleFS sampleRelease "/usr/local/bin/gcool").fs
          "/usr/local/bin/gcool" = none := by
  refine ⟨by decide, by decide, by decide, by decide⟩

theorem copyFile_trace_steps (o c : Bool) (k : Option Nat) (fs : FS) (src dst : String) :
    ∀ e ∈ (copyFile o c k fs src dst).trace, beforeBackup dst e.1 = false := by
  unfold copyFile
  cases fs src <;> cases o <;> cases c <;> cases k <;> simp [beforeBackup]

theorem installSteps_before_backup (env : Env) (fs : FS) (url d exePath : String)
    (hout : isUnder d exePath = false) :
    ∀ e ∈ (installSteps env fs url d exePath).trace,
      beforeBackup exePath e.1 = true → e.2 exePath = fs exePath := by
  have hne : exePath ≠ filepathJoin d "gcool.tar.gz" := ne_join_of_outside d _ exePath hout
  have hD := downloadFile_trace_other env fs url _ exePath hne
  have hDfs := downloadFile_fs_other env fs url _ exePath hne
  have hC := fun fs2 => copyFile_trace_steps env.swapOpenOk env.swapCreateOk env.swapCopyErr fs2
    (filepathJoin d "gcool") exePath
  unfold installSteps
  simp only [extractBinary]
  rcases downloadFile_err env fs url (filepathJoin d "gcool.tar.gz") with hd | hd
  · simp only [hd]
    cases hren : osRename (downloadFile env fs url (filepathJoin d "gcool.tar.gz")).fs
        env.backupRenameOk exePath (exePath ++ ".backup") with
    | none =>
      simp only [List.mem_append, List.mem_singleton]
      rintro e ((he | rfl) | rfl) hb
      · exact hD e he
      · exact hDfs
      · exact hDfs
    | some fs2 =>
      simp only []
      rcases copyFile_err env.swapOpenOk env.swapCreateOk env.swapCopyErr fs2
        (filepathJoin d "gcool") exePath with hc | hc
      · simp only [hc]
        cases hch : osChmod (copyFile env.swapOpenOk env.swapCreateOk env.swapCopyErr fs2
            (filepathJoin d "gcool") exePath).fs env.chmodOk exePath 0o755 with
        | none =>
          simp only [List.mem_append, List.mem_singleton, List.mem_cons, List.not_mem_nil,
            or_false]
          rintro e ((((he | rfl) | rfl) | he) | rfl | rfl) hb
          · exact hD e he
          · exact hDfs
          · simp [beforeBackup] at hb
          · rw [hC fs2 e he] at hb; exact absurd hb (by decide)
          · simp [beforeBackup] at hb
          · simp [beforeBackup] at hb
        | some fs4 =>
          simp only [List.mem_append, List.mem_singleton, List.mem_cons, List.not_mem_nil,
            or_false]
          rintro e ((((he | rfl) | rfl) | he) | rfl | rfl) hb
          · exact hD e he
          · exact hDfs
          · simp [beforeBackup] at hb
          · rw [hC fs2 e he] at hb; exact absurd hb (by decide)
          · simp [beforeBackup] at hb
          · simp [beforeBackup] at hb
      · simp only [hc]
        simp only [List.mem_append, List.mem_singleton, List.mem_cons, List.not_mem_nil,
          or_false]
        rintro e ((((he | rfl) | rfl) | he) | rfl) hb
        · exact hD e he
        · exact hDfs
        · simp [beforeBackup] at hb
        · rw [hC fs2 e he] at hb; exact absurd hb (by decide)
        · simp [beforeBackup] at hb
  · simp only [hd]
    exact fun e he _ => hD e he

theorem downloadAndInstall_before_backup (env : Env) (fs : FS) (release : Release)
    (exePath : String)
    (hdir : ∀ d, env.mkdirTemp = some d → isUnder d exePath = false) :
    ∀ e ∈ (downloadAndInstall env fs release exePath).trace,
      beforeBackup exePath e.1 = true → e.2 exePath = fs exePath := by
  unfold downloadAndInstall
  cases hf : findAssetURL release with
  | none => simp
  | some url =>
    by_cases hu : url = ""
    · simp [hu]
    · simp only [hu, if_false]
      cases hm : env.mkdirTemp with
      | none =>
        intro e he _
        simp only [List.mem_singleton] at he
        subst he
        rfl
      | some d =>
        intro e he hb
        simp only [List.mem_cons, List.mem_append, List.mem_singleton, List.not_mem_nil,
          or_false] at he
        rcases he with (rfl | he) | rfl
        · rfl
        · exact installSteps_before_backup env fs url d exePath (hdir d hm) e he hb
        · simp [beforeBackup] at hb
/-- C5, as amended: at every observable state of `downloadAndInstall` (the file
system after each of its operating-system calls), for a temporary directory
that holds neither the executable nor its backup path: after each call that
comes before the Backup rename the canonical path holds the complete original
executable; at every state the complete original is at the canonical path or
at the backup path, or the canonical path holds the complete new executable;
and at return the canonical path itself holds the complete original or the
complete new executable whenever the restoring rename did not fail. -/
theorem C5_original_kept_at_every_step (env : Env) (fs : FS) (release : Release)
    (exePath : String) (orig : File)
    (hdir : ∀ d, env.mkdirTemp = some d →
      isUnder d exePath = false ∧ isUnder d (exePath ++ ".backup") = false)
    (horig : fs exePath = some orig) :
    (∀ e ∈ (downloadAndInstall env fs release exePath).trace,
        beforeBackup exePath e.1 = true → e.2 exePath = some orig)
      ∧ (∀ e ∈ (downloadAndInstall env fs release exePath).trace,
          OriginalKept orig (env.mkdirTemp.bind fun d => fs (filepathJoin d "gcool")) exePath e.2)
      ∧ (env.restoreRenameOk = true →
          HoldsOldOrNew orig (env.mkdirTemp.bind fun d => fs (filepathJoin d "gcool")) exePath
            (downloadAndInstall env fs release exePath).fs) := by
  refine ⟨fun e he hb => (downloadAndInstall_before_backup env fs release exePath
    (fun d hd => (hdir d hd).1) e he hb).trans horig, ?_⟩
  unfold downloadAndInstall
  cases hf : findAssetURL release with
  | none => exact ⟨by simp, fun _ => Or.inl horig⟩
  | some url =>
    by_cases hu : url = ""
    · exact ⟨by simp [hu], fun _ => by simpa [hu] using Or.inl horig⟩
    · simp only [hu, if_false]
      cases hm : env.mkdirTemp with
      | none =>
        refine ⟨?_, fun _ => Or.inl horig⟩
        intro e he
        simp only [List.mem_singleton] at he
        subst he
        exact Or.inl (Or.inl horig)
      | some d =>
        obtain ⟨hoe, hob⟩ := hdir d hm
        obtain ⟨htr, hfin, hret⟩ := installSteps_kept env fs url d exePath orig hoe horig
        simp only [Option.some_bind]
        have hend : ∀ s : FS, (if env.removeAllOk = true then osRemoveAll s d else s) exePath
              = s exePath ∧
            (if env.removeAllOk = true then osRemoveAll s d else s) (exePath ++ ".backup")
              = s (exePath ++ ".backup") := by
          intro s
          cases env.removeAllOk
          · exact ⟨rfl, rfl⟩
          · exact ⟨osRemoveAll_outside _ _ _ hoe, osRemoveAll_outside _ _ _ hob⟩
        refine ⟨?_, fun hr => holds_of_eq _ _ _ _ _ (hend _).1 (hret hr)⟩
        intro e he
        simp only [List.mem_cons, List.mem_append, List.mem_singleton, List.not_mem_nil,
          or_false] at he
        rcases he with (rfl | he) | rfl
        · exact Or.inl (Or.inl horig)
        · exact htr e he
        · exact kept_of_eq _ _ _ _ _ (hend _).1 (hend _).2 hfin

/-- C5 amended, at the sample file system with every call allowed to succeed. -/
theorem C5_original_kept_at_every_step_witness :
    (∀ e ∈ (downloadAndInstall allOk sampleFS sampleRelease "/usr/local/bin/gcool").trace,
        OriginalKept sampleOld (sampleFS (filepathJoin "/tmp/gcool-update-1" "gcool"))
          "/usr/local/bin/gcool" e.2)
      ∧ HoldsOldOrNew sampleOld (sampleFS (filepathJoin "/tmp/gcool-update-1" "gcool"))
          "/usr/local/bin/gcool"
          (downloadAndInstall allOk sampleFS sampleRelease "/usr/local/bin/gcool").fs :=
  have h := C5_original_kept_at_every_step allOk sampleFS sampleRelease "/usr/local/bin/gcool"
    sampleOld (by intro d hd; cases hd; exact ⟨by decide, by decide⟩) (by decide)
  ⟨h.2.1, h.2.2 rfl⟩

/-- C5 as stated fails: with every operating-system call allowed to succeed,
the states after the Backup rename and after the failed `os.Open` have no file
at all at the canonical path, which therefore holds neither the original nor
the new executable there. -/
theorem C5_counterexample_path_absent_after_backup :
    ((downloadAndInstall allOk sampleFS sampleRelease "/usr/local/bin/gcool").trace.map
          (fun e => (e.1, e.2 "/usr/local/bin/gcool")))
        = [(Step.mkdirTemp, some sampleOld),
           (Step.httpGet "https://example.org/gcool_0.2.0_linux_amd64.tar.gz", some sampleOld),
           (Step.create "/tmp/gcool-update-1/gcool.tar.gz", some sampleOld),
           (Step.copy "/tmp/gcool-update-1/gcool.tar.gz", some sampleOld),
           (Step.extract "/tmp/gcool-update-1/gcool.tar.gz", some sampleOld),
           (Step.rename "/usr/local/bin/gcool" "/usr/local/bin/gcool.backup", none),
           (Step.open "/tmp/gcool-update-1/gcool", none),
           (Step.rename "/usr/local/bin/gcool.backup" "/usr/local/bin/gcool", some sampleOld),
           (Step.removeAll "/tmp/gcool-update-1", some sampleOld)]
      ∧ ¬ ∀ e ∈ (downloadAndInstall allOk sampleFS sampleRelease "/usr/local/bin/gcool").trace,
          HoldsOldOrNew sampleOld (sampleFS (filepathJoin "/tmp/gcool-update-1" "gcool"))
            "/usr/local/bin/gcool" e.2 := by
  refine ⟨by decide, by decide⟩

theorem payload_absent_after_backup (env : Env) (fs : FS) (url d exePath : String) (fs2 : FS)
    (hfresh : fs (filepathJoin d "gcool") = none)
    (hren : osRename (downloadFile env fs url (filepathJoin d "gcool.tar.gz")).fs
        env.backupRenameOk exePath (exePath ++ ".backup") = some fs2) :
    fs2 (filepathJoin d "gcool") = none := by
  obtain ⟨orig, -, -, hfs2⟩ := osRename_some _ _ _ _ _ hren
  rw [hfs2, FS.set_other _ _ _ _ (join_ne_backup_gcool d exePath)]
  by_cases he : filepathJoin d "gcool" = exePath
  · rw [← he, FS.set_same]
  · rw [FS.set_other _ _ _ _ he,
      downloadFile_fs_other _ _ _ _ _ (join_targz_ne_join_gcool d).symm, hfresh]

/-- C6 (what the code does instead): for a release with a suitable asset, when
the temporary directory is created (new, so without a file `gcool` in it), the
download succeeds and the Backup rename succeeds, `extractBinary` only names
the path `tmpDir/gcool`, at which there is no file when Swap starts; `os.Open`
in `copyFile` fails and `downloadAndInstall` returns "failed to install new
binary". -/
theorem C6_install_fails_after_backup (env : Env) (fs : FS) (release : Release)
    (exePath url d : String)
    (hasset : findAssetURL release = some url) (hurl : url ≠ "")
    (hdir : env.mkdirTemp = some d)
    (hfresh : fs (filepathJoin d "gcool") = none)
    (hdown : (downloadFile env fs url (filepathJoin d "gcool.tar.gz")).err = none)
    (hbackup : (osRename (downloadFile env fs url (filepathJoin d "gcool.tar.gz")).fs
        env.backupRenameOk exePath (exePath ++ ".backup")).isSome = true) :
    extractBinary (filepathJoin d "gcool.tar.gz") d = (filepathJoin d "gcool", none)
      ∧ (∀ fs2, osRename (downloadFile env fs url (filepathJoin d "gcool.tar.gz")).fs
            env.backupRenameOk exePath (exePath ++ ".backup") = some fs2 →
          fs2 (filepathJoin d "gcool") = none)
      ∧ (downloadAndInstall env fs release exePath).err = some UpdateError.installNewBinary := by
  refine ⟨rfl, fun fs2 h => payload_absent_after_backup env fs url d exePath fs2 hfresh h, ?_⟩
  obtain ⟨fs2, h2⟩ := Option.isSome_iff_exists.mp hbackup
  unfold downloadAndInstall
  simp only [hasset, hurl, if_false, hdir]
  exact installSteps_swap_error env fs url d exePath fs2 hfresh hdown h2

/-- C6 at the sample release and file system with every operating-system call
allowed to succeed: the run ends with "failed to install new binary", and the
canonical path holds the old executable, not the downloaded one. -/
theorem C6_install_fails_after_backup_witness :
    (downloadAndInstall allOk sampleFS sampleRelease "/usr/local/bin/gcool").err
        = some UpdateError.installNewBinary
      ∧ (downloadAndInstall allOk sampleFS sampleRelease "/usr/local/bin/gcool").fs
          "/usr/local/bin/gcool" = some sampleOld :=
  ⟨(C6_install_fails_after_backup allOk sampleFS sampleRelease "/usr/local/bin/gcool"
      "https://example.org/gcool_0.2.0_linux_amd64.tar.gz" "/tmp/gcool-update-1"
      (by decide) (by decide) rfl (by decide) (by decide) (by decide)).2.2,
    by decide⟩

/-! ### tui -/

theorem selectedBranch_of_inRange (m : Model) (h0 : 0 ≤ m.branchIndex)
    (hlt : m.branchIndex < (m.filteredBranches.length : Int)) :
    ∃ item, m.filteredBranches[m.branchIndex.toNat]? = some item ∧
      selectedBranch m = some item := by
  have hi : m.branchIndex.toNat < m.filteredBranches.length := by omega
  refine ⟨m.filteredBranches[m.branchIndex.toNat], List.getElem?_eq_getElem hi, ?_⟩
  simp [selectedBranch, h0, List.getElem?_eq_getElem hi]

/-- C7: in a search-based modal whose filtered list is non-empty and whose
selection index lies within it, Enter with the focus on the primary button (2)
or on the list (1) invokes the confirm callback exactly once, with the item of
the filtered list at the selection index, and the resulting modal state is
`noModal`. -/
theorem C7_enter_confirms_highlighted (matcher : String → String → Bool) (m : Model)
    (config : searchModalConfig)
    (_hne : m.filteredBranches ≠ [])
    (h0 : 0 ≤ m.branchIndex) (hlt : m.branchIndex < (m.filteredBranches.length : Int))
    (hfocus : m.modalFocused = 2 ∨ m.modalFocused = 1) :
    ∃ item, m.filteredBranches[m.branchIndex.toNat]? = some item
      ∧ (handleSearchBasedModalInput matcher m KeyMsg.KeyEnter config).calls
          = [Call.confirm item]
      ∧ (handleSearchBasedModalInput matcher m KeyMsg.KeyEnter config).model.modal
          = modalType.noModal := by
  obtain ⟨item, hitem, hsel⟩ := selectedBranch_of_inRange m h0 hlt
  refine ⟨item, hitem, ?_⟩
  have h3 : m.modalFocused ≠ 3 := by omega
  simp [handleSearchBasedModalInput, h3, hfocus, hsel]

/-- C7 at the two inputs of the tests: `["main","develop"]`, index 0, focus 2
confirms `main`; `["main","develop","feature/test"]`, index 2, focus on the
list confirms `feature/test`; both close the modal. -/
theorem C7_enter_confirms_highlighted_witness :
    ((handleSearchBasedModalInput (fun _ _ => true) enterConfirmModel KeyMsg.KeyEnter
          testSearchConfig).calls = [Call.confirm "main"]
      ∧ (handleSearchBasedModalInput (fun _ _ => true) enterConfirmModel KeyMsg.KeyEnter
          testSearchConfig).model.modal = modalType.noModal)
    ∧ ((handleSearchBasedModalInput (fun _ _ => true) navigateUpModel KeyMsg.KeyEnter
          testSearchConfig).calls = [Call.confirm "feature/test"]
      ∧ (handleSearchBasedModalInput (fun _ _ => true) navigateUpModel KeyMsg.KeyEnter
          testSearchConfig).model.modal = modalType.noModal) := by
  constructor
  · obtain ⟨item, h1, h2, h3⟩ := C7_enter_confirms_highlighted (fun _ _ => true)
      enterConfirmModel testSearchConfig (by decide) (by decide) (by decide) (Or.inl rfl)
    have : item = "main" := by
      have h : enterConfirmModel.filteredBranches[enterConfirmModel.branchIndex.toNat]?
          = some "main" := by decide
      rw [h] at h1
      exact (Option.some.inj h1).symm
    subst this
    exact ⟨h2, h3⟩
  · obtain ⟨item, h1, h2, h3⟩ := C7_enter_confirms_highlighted (fun _ _ => true)
      navigateUpModel testSearchConfig (by decide) (by decide) (by decide) (Or.inr rfl)
    have : item = "feature/test" := by
      have h : navigateUpModel.filteredBranches[navigateUpModel.branchIndex.toNat]?
          = some "feature/test" := by decide
      rw [h] at h1
      exact (Option.some.inj h1).symm
    subst this
    exact ⟨h2, h3⟩

/-- C8: Esc in a search-based modal and in a list-selection modal gives modal
state `noModal` and invokes no callback, whatever the model and the focus;
Enter in a search-based modal with the focus on the cancel button (3) gives
`noModal` and invokes no callback either. -/
theorem C8_cancel_never_confirms (matcher : String → String → Bool) (m : Model)
    (searchConfig : searchModalConfig) (listConfig : listSelectionConfig) :
    ((handleSearchBasedModalInput matcher m KeyMsg.KeyEsc searchConfig).model.modal
          = modalType.noModal
        ∧ (handleSearchBasedModalInput matcher m KeyMsg.KeyEsc searchConfig).calls = [])
      ∧ ((handleListSelectionModalInput m KeyMsg.KeyEsc listConfig).model.modal
          = modalType.noModal
        ∧ (handleListSelectionModalInput m KeyMsg.KeyEsc listConfig).calls = [])
      ∧ (m.modalFocused = 3 →
          (handleSearchBasedModalInput matcher m KeyMsg.KeyEnter searchConfig).model.modal
            = modalType.noModal
          ∧ (handleSearchBasedModalInput matcher m KeyMsg.KeyEnter searchConfig).calls = []) := by
  refine ⟨⟨rfl, rfl⟩, ⟨rfl, rfl⟩, ?_⟩
  intro h
  simp [handleSearchBasedModalInput, h]

theorem searchUpDown_step (matcher : String → String → Bool) (config : searchModalConfig)
    (m : Model) (k : KeyMsg) (hk : isUpDown k = true)
    (h0 : 0 ≤ m.branchIndex) (hlt : m.branchIndex < (m.filteredBranches.length : Int)) :
    (handleSearchBasedModalInput matcher m k config).model.filteredBranches
        = m.filteredBranches
      ∧ 0 ≤ (handleSearchBasedModalInput matcher m k config).model.branchIndex
      ∧ (handleSearchBasedModalInput matcher m k config).model.branchIndex
          < (m.filteredBranches.length : Int) := by
  cases k <;> simp [isUpDown] at hk
  · unfold handleSearchBasedModalInput
    simp only []
    split_ifs <;> simp <;> omega
  · unfold handleSearchBasedModalInput
    simp only []
    split_ifs <;> simp <;> omega

theorem searchUpDown_run (matcher : String → String → Bool) (config : searchModalConfig)
    (keys : List KeyMsg) :
    ∀ m : Model, (∀ k ∈ keys, isUpDown k = true) → 0 ≤ m.branchIndex →
      m.branchIndex < (m.filteredBranches.length : Int) →
      0 ≤ (pressSearchKeys matcher config m keys).branchIndex
        ∧ (pressSearchKeys matcher config m keys).branchIndex
            < (m.filteredBranches.length : Int) := by
  induction keys with
  | nil => intro m _ h0 hlt; exact ⟨h0, hlt⟩
  | cons k ks ih =>
    intro m hks h0 hlt
    obtain ⟨hf, h0', hlt'⟩ := searchUpDown_step matcher config m k
      (hks k (List.mem_cons_self k ks)) h0 hlt
    have := ih (handleSearchBasedModalInput matcher m k config).model
      (fun k' hk' => hks k' (List.mem_cons_of_mem k hk')) h0' (by rw [hf]; exact hlt')
    rw [hf] at this
    exact this

/-- C9: in a search-based modal with `N ≥ 1` listed candidates and a selection
index in `[0, N-1]`, the index stays in `[0, N-1]` under every sequence of Up
and Down presses; with the focus on the list, Down adds exactly one unless the
index is `N-1` (then it is unchanged) and Up subtracts exactly one unless the
index is 0 (then it is unchanged). -/
theorem C9_search_index_saturates (matcher : String → String → Bool)
    (config : searchModalConfig) (m : Model)
    (_hN : 1 ≤ m.filteredBranches.length)
    (h0 : 0 ≤ m.branchIndex) (hlt : m.branchIndex ≤ (m.filteredBranches.length : Int) - 1) :
    (∀ keys : List KeyMsg, (∀ k ∈ keys, isUpDown k = true) →
        0 ≤ (pressSearchKeys matcher config m keys).branchIndex
          ∧ (pressSearchKeys matcher config m keys).branchIndex
              ≤ (m.filteredBranches.length : Int) - 1)
      ∧ (m.modalFocused = 1 →
          (handleSearchBasedModalInput matcher m KeyMsg.KeyDown config).model.branchIndex
            = if m.branchIndex = (m.filteredBranches.length : Int) - 1 then m.branchIndex
              else m.branchIndex + 1)
      ∧ (m.modalFocused = 1 →
          (handleSearchBasedModalInput matcher m KeyMsg.KeyUp config).model.branchIndex
            = if m.branchIndex = 0 then m.branchIndex else m.branchIndex - 1) := by
  refine ⟨?_, ?_, ?_⟩
  · intro keys hkeys
    have := searchUpDown_run matcher config keys m hkeys h0 (by omega)
    omega
  · intro hf
    unfold handleSearchBasedModalInput
    simp only [hf]
    split_ifs <;> simp <;> omega
  · intro hf
    unfold handleSearchBasedModalInput
    simp only [hf]
    split_ifs <;> simp <;> omega

/-- C9 at the inputs of the tests: three candidates, focus on the list; from
index 2 Up gives 1, from index 0 Down gives 1. -/
theorem C9_search_index_saturates_witness :
    (handleSearchBasedModalInput (fun _ _ => true) navigateUpModel KeyMsg.KeyUp
        testSearchConfig).model.branchIndex = 1
      ∧ (handleSearchBasedModalInput (fun _ _ => true) navigateDownModel KeyMsg.KeyDown
        testSearchConfig).model.branchIndex = 1 :=
  ⟨((C9_search_index_saturates (fun _ _ => true) testSearchConfig navigateUpModel
      (by decide) (by decide) (by decide)).2.2 rfl).trans (by decide),
    ((C9_search_index_saturates (fun _ _ => true) testSearchConfig navigateDownModel
      (by decide) (by decide) (by decide)).2.1 rfl).trans (by decide)⟩

theorem saturating_mutators_keep_range (m : Model)
    (h0 : 0 ≤ m.sessionIndex) (hlt : m.sessionIndex ≤ (m.sessions.length : Int) - 1) :
    (handleListSelectionModalInput m KeyMsg.KeyDown (saturatingListConfig m)).model.sessionIndex
        = (if m.sessionIndex < (m.sessions.length : Int) - 1 then m.sessionIndex + 1
            else (m.sessions.length : Int) - 1)
      ∧ (handleListSelectionModalInput m KeyMsg.KeyUp (saturatingListConfig m)).model.sessionIndex
        = (if 0 < m.sessionIndex then m.sessionIndex - 1 else 0) := by
  constructor
  · unfold handleListSelectionModalInput saturatingListConfig
    simp only []
    split_ifs with h
    · rfl
    · show m.sessionIndex = _
      omega
  · unfold handleListSelectionModalInput saturatingListConfig
    simp only []
    split_ifs with h
    · rfl
    · show m.sessionIndex = _
      omega

/-- C10 (what the modelled engine does instead): the engine of section 4.2
calls the mutators and enforces no boundary itself, and it invokes no callback
on Up or Down. With the tests' mutators, which only add or subtract one, Down
gives `i+1` and Up gives `i-1` at every index: with two items, Down at
index 1 gives 2 and Up at index 0 gives -1, where the tests
`TestListSelectionModalInput_BoundaryCheck_Down` and `_Up` require 1 and 0. -/
theorem C10_unguarded_mutators_leave_range :
    (∀ m : Model,
        (handleListSelectionModalInput m KeyMsg.KeyDown (testListConfig m)).model.sessionIndex
            = m.sessionIndex + 1
          ∧ (handleListSelectionModalInput m KeyMsg.KeyDown (testListConfig m)).calls = []
          ∧ (handleListSelectionModalInput m KeyMsg.KeyUp (testListConfig m)).model.sessionIndex
            = m.sessionIndex - 1
          ∧ (handleListSelectionModalInput m KeyMsg.KeyUp (testListConfig m)).calls = [])
      ∧ (handleListSelectionModalInput boundaryDownModel KeyMsg.KeyDown
          (testListConfig boundaryDownModel)).model.sessionIndex = 2
      ∧ (handleListSelectionModalInput boundaryUpModel KeyMsg.KeyUp
          (testListConfig boundaryUpModel)).model.sessionIndex = -1 := by
  refine ⟨fun m => ⟨rfl, rfl, rfl, rfl⟩, by decide, by decide⟩

theorem clampIndex_range (i : Int) (n : Nat) :
    0 ≤ clampIndex i n ∧ (n = 0 → clampIndex i n = 0) ∧
      (n ≠ 0 → clampIndex i n < (n : Int)) := by
  unfold clampIndex
  split_ifs <;> refine ⟨?_, ?_, ?_⟩ <;> intros <;> omega

/-- C11: in a search-based modal with the focus on the list (1), typing a
character `c` onto the search buffer `b` gives the buffer `b` followed by `c`,
moves the focus to the search input (0), recomputes the filtered list for the
new buffer, and leaves the selection index within that list: at least 0,
below its length when it is non-empty, and 0 when it is empty. -/
theorem C11_typing_in_list_appends_and_refocuses (matcher : String → String → Bool)
    (m : Model) (config : searchModalConfig) (c : Char)
    (hfocus : m.modalFocused = 1) :
    (handleSearchBasedModalInput matcher m (KeyMsg.KeyRunes [c]) config).model.searchInput
        = m.searchInput ++ String.singleton c
      ∧ (handleSearchBasedModalInput matcher m (KeyMsg.KeyRunes [c]) config).model.modalFocused
          = 0
      ∧ (handleSearchBasedModalInput matcher m (KeyMsg.KeyRunes [c]) config).model.filteredBranches
          = filterBranches matcher (m.searchInput ++ String.singleton c) m.branches
      ∧ 0 ≤ (handleSearchBasedModalInput matcher m (KeyMsg.KeyRunes [c]) config).model.branchIndex
      ∧ ((handleSearchBasedModalInput matcher m (KeyMsg.KeyRunes [c])
            config).model.filteredBranches = [] →
          (handleSearchBasedModalInput matcher m (KeyMsg.KeyRunes [c]) config).model.branchIndex
            = 0)
      ∧ ((handleSearchBasedModalInput matcher m (KeyMsg.KeyRunes [c])
            config).model.filteredBranches ≠ [] →
          (handleSearchBasedModalInput matcher m (KeyMsg.KeyRunes [c]) config).model.branchIndex
            < ((handleSearchBasedModalInput matcher m (KeyMsg.KeyRunes [c])
                config).model.filteredBranches.length : Int)) := by
  have hs : String.mk [c] = String.singleton c := rfl
  have hr := clampIndex_range m.branchIndex
    (filterBranches matcher (m.searchInput ++ String.singleton c) m.branches).length
  simp only [handleSearchBasedModalInput, hfocus, true_or, if_true, hs]
  refine ⟨trivial, trivial, trivial, hr.1, ?_, ?_⟩
  · intro h
    exact hr.2.1 (by simp [h])
  · intro h
    exact hr.2.2 (by simpa using h)

/-- C11 at the input of the test: empty buffer, candidates `main`, `develop`,
`feature/test`, `hotfix/bug`, focus on the list; typing `f` gives the buffer
`f` and focus 0 (and, with substring matching, the two candidates that hold an
`f`, with the index at 0). -/
theorem C11_typing_in_list_appends_and_refocuses_witness :
    (handleSearchBasedModalInput substringMatcher typeToSearchModel (KeyMsg.KeyRunes ['f'])
        testSearchConfig).model.searchInput = "f"
      ∧ (handleSearchBasedModalInput substringMatcher typeToSearchModel (KeyMsg.KeyRunes ['f'])
        testSearchConfig).model.modalFocused = 0
      ∧ (handleSearchBasedModalInput substringMatcher typeToSearchModel (KeyMsg.KeyRunes ['f'])
        testSearchConfig).model.filteredBranches = ["feature/test", "hotfix/bug"]
      ∧ (handleSearchBasedModalInput substringMatcher typeToSearchModel (KeyMsg.KeyRunes ['f'])
        testSearchConfig).model.branchIndex = 0 :=
  have h := C11_typing_in_list_appends_and_refocuses substringMatcher typeToSearchModel
    testSearchConfig 'f' rfl
  ⟨h.1.trans (by decide), h.2.1, h.2.2.1.trans (by decide), by decide⟩

/-! ### update.go: `contains` and `findAssetURL` -/

theorem byteAt_of_lt (s : List Char) (n : Nat) (h : n < s.length) :
    byteAt s (n : Int) = some s[n] := by
  unfold byteAt
  have h1 : (0 : Int) ≤ (n : Int) ∧ (n : Int) < (s.length : Int) := by omega
  simp [h1, List.getElem?_eq_getElem h]

theorem containsMatchLoop_eq (s sub : List Char) (i : Nat) :
    ∀ k j, j + k = sub.length → i + sub.length ≤ s.length →
      containsMatchLoop s sub (i : Int) j k
        = some (decide (sub.drop j <+: s.drop (i + j))) := by
  intro k
  induction k with
  | zero =>
    intro j hj _
    have : sub.drop j = [] := List.drop_eq_nil_of_le (by omega)
    simp [containsMatchLoop, this]
  | succ k ih =>
    intro j hj hlen
    have hj1 : j < sub.length := by omega
    have hij : i + j < s.length := by omega
    have e1 : byteAt s ((i : Int) + (j : Int)) = some s[i + j] := by
      have := byteAt_of_lt s (i + j) hij
      rwa [Nat.cast_add] at this
    have e2 : byteAt sub (j : Int) = some sub[j] := byteAt_of_lt sub j hj1
    rw [containsMatchLoop, e1, e2]
    simp only []
    have hcons : decide (sub.drop j <+: s.drop (i + j))
        = decide (sub[j] = s[i + j] ∧ sub.drop (j + 1) <+: s.drop (i + j + 1)) := by
      rw [List.drop_eq_getElem_cons hj1, List.drop_eq_getElem_cons hij]
      exact decide_eq_decide.mpr List.cons_prefix_cons
    rw [hcons]
    by_cases hab : s[i + j] = sub[j]
    · have := ih (j + 1) (by omega) hlen
      rw [if_neg (not_not.mpr hab), this]
      simp [hab, Nat.add_assoc]
    · have hba : ¬ sub[j] = s[i + j] := fun h => hab h.symm
      rw [if_pos hab]
      simp [hba]

theorem containsScanLoop_spec (s sub : List Char) (hle : sub.length ≤ s.length) :
    ∀ k i : Nat, i + k = s.length - sub.length + 1 →
      ∃ b, containsScanLoop s sub (i : Int) k = some b ∧
        (b = true ↔ ∃ t, i ≤ t ∧ t + sub.length ≤ s.length ∧ sub <+: s.drop t) := by
  intro k
  induction k with
  | zero =>
    intro i hi
    refine ⟨false, rfl, ?_⟩
    constructor
    · intro h; cases h
    · rintro ⟨t, h1, h2, -⟩
      omega
  | succ k ih =>
    intro i hi
    have hlen : i + sub.length ≤ s.length := by omega
    have hm := containsMatchLoop_eq s sub i sub.length 0 (by omega) hlen
    simp only [List.drop_zero, Nat.add_zero] at hm
    rw [containsScanLoop, hm]
    by_cases hp : sub <+: s.drop i
    · refine ⟨true, by simp [hp], ?_⟩
      exact ⟨fun _ => ⟨i, le_refl i, hlen, hp⟩, fun _ => rfl⟩
    · obtain ⟨b, hb, hiff⟩ := ih (i + 1) (by omega)
      refine ⟨b, ?_, ?_⟩
      · simp only [hp, decide_False]
        rw [← hb]
        rfl
      · rw [hiff]
        constructor
        · rintro ⟨t, h1, h2, h3⟩
          exact ⟨t, by omega, h2, h3⟩
        · rintro ⟨t, h1, h2, h3⟩
          have : t ≠ i := fun e => hp (e ▸ h3)
          exact ⟨t, by omega, h2, h3⟩

theorem infix_iff_prefix_drop (s sub : List Char) :
    sub <:+: s ↔ ∃ t, t + sub.length ≤ s.length ∧ sub <+: s.drop t := by
  constructor
  · rintro ⟨a, b, rfl⟩
    refine ⟨a.length, by simp, ?_⟩
    simp [List.append_assoc]
  · rintro ⟨t, -, h⟩
    exact List.infix_iff_prefix_suffix.mpr ⟨s.drop t, h, List.drop_suffix t s⟩

theorem contains_eq (s substr : String) :
    contains s substr = some (decide (substr.data <:+: s.data)) := by
  unfold contains
  by_cases hle : substr.data.length ≤ s.data.length
  · have hk : (((s.data.length : Int) - (substr.data.length : Int) + 1).toNat)
        = s.data.length - substr.data.length + 1 := by omega
    rw [hk]
    obtain ⟨b, hb, hiff⟩ := containsScanLoop_spec s.data substr.data hle
      (s.data.length - substr.data.length + 1) 0 (by omega)
    rw [Nat.cast_zero] at hb
    rw [hb]
    congr 1
    rw [Bool.eq_iff_iff, hiff, decide_eq_true_iff, infix_iff_prefix_drop]
    constructor
    · rintro ⟨t, -, h2, h3⟩
      exact ⟨t, h2, h3⟩
    · rintro ⟨t, h2, h3⟩
      exact ⟨t, Nat.zero_le t, h2, h3⟩
  · have hk : (((s.data.length : Int) - (substr.data.length : Int) + 1).toNat) = 0 := by omega
    rw [hk]
    have hn : ¬ substr.data <:+: s.data := fun h => hle h.length_le
    simp [containsScanLoop, hn]

theorem url_length_pos (url : String) : url.data.length > 0 ↔ url ≠ "" := by
  rw [gt_iff_lt, List.length_pos, ne_eq, ne_eq, String.ext_iff]

theorem findAssetURLLoop_eq (assets : List Asset) :
    findAssetURLLoop assets
      = some (match assets.find? isTarGzAsset with
          | some asset => asset.BrowserDownloadURL
          | none => "") := by
  induction assets with
  | nil => rfl
  | cons a rest ih =>
    rw [findAssetURLLoop, contains_eq, List.find?_cons]
    by_cases hu : a.BrowserDownloadURL = ""
    · have h0 : ¬ a.BrowserDownloadURL.data.length > 0 := by
        rw [url_length_pos]; exact fun h => h hu
      have hf : isTarGzAsset a = false := by simp [isTarGzAsset, hu]
      rw [if_neg h0, hf, ih]
    · have h0 : a.BrowserDownloadURL.data.length > 0 := (url_length_pos _).mpr hu
      rw [if_pos h0]
      by_cases hn : ".tar.gz".data <:+: a.Name.data
      · have hf : isTarGzAsset a = true := by simp [isTarGzAsset, hu, hn]
        simp only [hn, decide_True, hf]
      · have hf : isTarGzAsset a = false := by simp [isTarGzAsset, hn]
        simp only [hn, decide_False, hf, ih]

/-- C16: `findAssetURL` returns the download URL of the first asset, in list
order, whose URL is non-empty and whose name has `.tar.gz` as a contiguous
substring, and the empty string exactly when no asset satisfies both; and
`contains(s, substr)` is true exactly when `substr` occurs contiguously in
`s`, never reading outside `s`: true for the empty `substr`, false for a
`substr` longer than `s`. -/
theorem C16_findAssetURL_first_tar_gz (release : Release) :
    findAssetURL release = some (firstTarGzURL release)
      ∧ (findAssetURL release = some "" ↔ ∀ a ∈ release.Assets, isTarGzAsset a = false)
      ∧ (∀ s substr : String, contains s substr = some (decide (substr.data <:+: s.data)))
      ∧ (∀ s : String, contains s "" = some true)
      ∧ (∀ s substr : String, s.data.length < substr.data.length →
          contains s substr = some false) := by
  have h1 : findAssetURL release = some (firstTarGzURL release) :=
    findAssetURLLoop_eq release.Assets
  refine ⟨h1, ?_, contains_eq, ?_, ?_⟩
  · rw [h1, firstTarGzURL]
    constructor
    · intro h a ha
      cases hf : release.Assets.find? isTarGzAsset with
      | none => exact Bool.eq_false_iff.mpr (List.find?_eq_none.mp hf a ha)
      | some b =>
        rw [hf] at h
        have hb : isTarGzAsset b = true := List.find?_some hf
        have hu : b.BrowserDownloadURL ≠ "" := by
          simp only [isTarGzAsset, Bool.and_eq_true, decide_eq_true_eq] at hb
          exact hb.1
        exact absurd (Option.some.inj h) hu
    · intro h
      have hf : release.Assets.find? isTarGzAsset = none :=
        List.find?_eq_none.mpr (fun a ha => by simp [h a ha])
      rw [hf]
  · intro s
    rw [contains_eq]
    simp
  · intro s substr hlt
    rw [contains_eq]
    have hn : ¬ substr.data <:+: s.data := fun h => absurd h.length_le (by omega)
    simp [hn]

/-- C12 (what the code does instead): `findAssetURL` has no platform among its
inputs. On the release that lists the macOS arm64 archive before the Linux
amd64 one it returns the macOS URL; the name of that asset does not hold the
suffix of Linux amd64, while the name of the second asset does. -/
theorem C12_first_archive_whatever_the_platform :
    findAssetURL twoPlatformRelease
        = some "https://example.org/gcool_0.2.0_darwin_arm64.tar.gz"
      ∧ contains "gcool_0.2.0_darwin_arm64.tar.gz" (platformSuffix "linux" "amd64") = some false
      ∧ contains "gcool_0.2.0_linux_amd64.tar.gz" (platformSuffix "linux" "amd64") = some true := by
  refine ⟨by decide, by decide, by decide⟩

/-! ### scripts.go -/

theorem foldl_append_names (entries : List (String × String)) :
    ∀ init : List String,
      entries.foldl (fun names entry => names ++ [entry.1]) init
        = init ++ entries.map Prod.fst := by
  induction entries with
  | nil => intro init; simp
  | cons e rest ih => intro init; simp [ih]

/-- C13 (what the code does instead): `GetScriptNames` returns the empty list for
a nil receiver and a nil map, and otherwise the keys in the order of the
`range` loop, without sorting them; for a map with `test` and `build` that is
iterated `test` first the result is `test`, `build`, which is not ascending. -/
theorem C13_names_in_iteration_order :
    ScriptConfig.GetScriptNames none = []
      ∧ ScriptConfig.GetScriptNames (some ⟨none⟩) = []
      ∧ (∀ entries, ScriptConfig.GetScriptNames (some ⟨some entries⟩) = entries.map Prod.fst)
      ∧ ScriptConfig.GetScriptNames (some testBuildConfig) = ["test", "build"]
      ∧ ¬ Ascending (ScriptConfig.GetScriptNames (some testBuildConfig)) := by
  refine ⟨rfl, rfl, ?_, by decide, by decide⟩
  intro entries
  simp [ScriptConfig.GetScriptNames, foldl_append_names]

/-! ### main.go: bootstrap -/

theorem osGetenv_osSetenv (env : Environ) (key value : String) :
    osGetenv (osSetenv env key value) key = value := by
  simp [osGetenv, osSetenv]

theorem sourceAndReexec_effects (out : BootOutcomes) (env : Environ) (args : List String)
    (detector : Detector) :
    ∃ argv0 argv, (sourceAndReexec out env args detector).effects
      = [BootEffect.exec argv0 argv env] := by
  unfold sourceAndReexec
  cases out.ExecOk <;> exact ⟨_, _, rfl⟩

theorem sourceAndReexec_argv (out : BootOutcomes) (env : Environ) (args : List String)
    (detector : Detector) :
    ∃ shellPath, (sourceAndReexec out env args detector).effects
      = [BootEffect.exec shellPath
          [filepathBase shellPath, "-c", sourceCmd detector.RCFile args] env] := by
  unfold sourceAndReexec
  cases out.ExecOk <;> simp

theorem ensureShellIntegration_guard_first (out : BootOutcomes) (env : Environ)
    (args : List String) :
    (ensureShellIntegration out env args).effects = [] ∨
      ∃ rest, (ensureShellIntegration out env args).effects
        = BootEffect.setenv "GCOOL_INIT_ATTEMPTED" "1" :: rest := by
  unfold ensureShellIntegration
  by_cases hs : osGetenv env "GCOOL_SWITCH_FILE" = ""
  · right
    simp only [hs, ne_eq, not_true_eq_false, if_false]
    cases out.NewDetector with
    | none => exact ⟨_, rfl⟩
    | some d => cases out.IsInstalled <;> cases out.InstallOk <;> exact ⟨_, rfl⟩
  · left
    simp [hs]

theorem ensureShellIntegration_exec_env (out : BootOutcomes) (env : Environ)
    (args : List String) (argv0 : String) (argv : List String) (envv : Environ)
    (h : BootEffect.exec argv0 argv envv ∈ (ensureShellIntegration out env args).effects) :
    osGetenv envv "GCOOL_INIT_ATTEMPTED" = "1" := by
  unfold ensureShellIntegration at h
  by_cases hs : osGetenv env "GCOOL_SWITCH_FILE" = ""
  · simp only [hs, ne_eq, not_true_eq_false, if_false] at h
    cases hd : out.NewDetector with
    | none => simp [hd] at h
    | some d =>
      obtain ⟨a0, av, he⟩ := sourceAndReexec_effects out
        (osSetenv env "GCOOL_INIT_ATTEMPTED" "1") args d
      cases hi : out.IsInstalled <;> cases hk : out.InstallOk <;>
        simp [hd, hi, hk, he] at h <;>
        (obtain ⟨-, -, rfl⟩ := h; exact osGetenv_osSetenv env _ _)
  · simp [hs] at h

theorem mainBootstrap_idle (out : BootOutcomes) (env : Environ) (args : List String)
    (h : osGetenv env "GCOOL_INIT_ATTEMPTED" ≠ "" ∨ args[1]? = some "init" ∨
      args[1]? = some "version" ∨ args[1]? = some "help") :
    mainBootstrap out env args = ⟨env, [], false, none⟩ := by
  unfold mainBootstrap
  rcases h with h | h | h | h
  · simp [h]
  · simp [h]
  · simp [h]
  · simp [h]

theorem mainBootstrap_exec_env (out : BootOutcomes) (env : Environ)
    (args : List String) (argv0 : String) (argv : List String) (envv : Environ)
    (h : BootEffect.exec argv0 argv envv ∈ (mainBootstrap out env args).effects) :
    osGetenv envv "GCOOL_INIT_ATTEMPTED" = "1" := by
  unfold mainBootstrap at h
  dsimp only at h
  split_ifs at h with hc
  · cases he : (ensureShellIntegration out env args).err with
    | none =>
      simp only [he] at h
      exact ensureShellIntegration_exec_env out env args argv0 argv envv h
    | some e =>
      simp only [he, List.mem_append, List.mem_cons, List.mem_singleton, List.not_mem_nil,
        or_false] at h
      rcases h with h | h | h
      · exact ensureShellIntegration_exec_env out env args argv0 argv envv h
      · cases h
      · cases h
  · simp at h

theorem reexec_child_idle (p q : Proc) (h : Reexecs p q) :
    q.boot = ⟨q.env, [], false, none⟩ := by
  obtain ⟨-, argv0, argv, envv, hmem, henv⟩ := h
  have h1 := mainBootstrap_exec_env p.out p.env p.args argv0 argv envv hmem
  apply mainBootstrap_idle
  left
  rw [henv, h1]
  decide

theorem chain_bootstraps_once (chain : List Proc) (h : List.Chain' Reexecs chain) :
    (chain.filter (fun p => p.boot.effects.any isBootstrapStep)).length ≤ 1 := by
  match chain, h with
  | [], _ => simp
  | [p], _ =>
    by_cases hp : p.boot.effects.any isBootstrapStep = true <;> simp [List.filter, hp]
  | p :: q :: rest, h =>
    rw [List.chain'_cons] at h
    have hq := reexec_child_idle p q h.1
    have hrest : rest = [] := by
      cases rest with
      | nil => rfl
      | cons r rest' =>
        have h2 := h.2
        rw [List.chain'_cons] at h2
        have := h2.1.1
        rw [hq] at this
        cases this
    subst hrest
    have hqf : q.boot.effects.any isBootstrapStep = false := by rw [hq]; rfl
    by_cases hp : p.boot.effects.any isBootstrapStep = true <;> simp [List.filter, hp, hqf]

theorem mainDispatch_no_init (out : BootOutcomes) (initOut : InitOutcomes) (flags : InitFlags)
    (env : Environ) (args : List String)
    (h : osGetenv env "GCOOL_INIT_ATTEMPTED" ≠ "" ∨ args[1]? = some "version" ∨
      args[1]? = some "help")
    (hinit : args[1]? ≠ some "init") :
    ∃ d, mainDispatch out initOut flags env args = (⟨env, [], false, none⟩, d) ∧
      ∀ effects, d ≠ Dispatch.init effects := by
  have hb : mainBootstrap out env args = ⟨env, [], false, none⟩ :=
    mainBootstrap_idle out env args (by
      rcases h with h | h | h
      · exact Or.inl h
      · exact Or.inr (Or.inr (Or.inl h))
      · exact Or.inr (Or.inr (Or.inr h)))
  unfold mainDispatch
  simp only [hb, Bool.false_eq_true, if_false]
  split
  · exact absurd ‹_› hinit
  · exact ⟨_, rfl, fun _ h => by cases h⟩
  · exact ⟨_, rfl, fun _ h => by cases h⟩
  · exact ⟨_, rfl, fun _ h => by cases h⟩
  · exact ⟨_, rfl, fun _ h => by cases h⟩

/-- C14, as amended: a process started with `GCOOL_INIT_ATTEMPTED` non-empty, or
with first argument `init`, `version` or `help`, runs none of the automatic
bootstrap of lines 35-50 (no `Setenv`, no install, no re-execution), and
unless its first argument is `init` it is not dispatched to `handleInit`
either, so it installs nothing; `ensureShellIntegration` with
`GCOOL_SWITCH_FILE` non-empty returns nil without an effect, the guard
included; whenever `ensureShellIntegration` reaches its install or the
re-execution, setting the guard is its first effect and the environment
handed to `syscall.Exec` binds `GCOOL_INIT_ATTEMPTED` to `1`; hence along
every chain of processes, each running in the shell that the bootstrap of the
one before has put in its place and inheriting the guard, at most one process
installs or re-executes by the automatic bootstrap. -/
theorem C14_bootstrap_at_most_once (out : BootOutcomes) (env : Environ) (args : List String) :
    ((osGetenv env "GCOOL_INIT_ATTEMPTED" ≠ "" ∨ args[1]? = some "init" ∨
          args[1]? = some "version" ∨ args[1]? = some "help") →
        mainBootstrap out env args = ⟨env, [], false, none⟩)
      ∧ (∀ (initOut : InitOutcomes) (flags : InitFlags),
          (osGetenv env "GCOOL_INIT_ATTEMPTED" ≠ "" ∨ args[1]? = some "version" ∨
            args[1]? = some "help") →
          args[1]? ≠ some "init" →
          ∃ d, mainDispatch out initOut flags env args = (⟨env, [], false, none⟩, d) ∧
            ∀ effects, d ≠ Dispatch.init effects)
      ∧ (osGetenv env "GCOOL_SWITCH_FILE" ≠ "" →
          ensureShellIntegration out env args = ⟨env, [], false, none⟩)
      ∧ ((ensureShellIntegration out env args).effects.any isBootstrapStep = true →
          ∃ rest, (ensureShellIntegration out env args).effects
            = BootEffect.setenv "GCOOL_INIT_ATTEMPTED" "1" :: rest)
      ∧ (∀ argv0 argv envv,
          BootEffect.exec argv0 argv envv ∈ (mainBootstrap out env args).effects →
            osGetenv envv "GCOOL_INIT_ATTEMPTED" = "1")
      ∧ (∀ chain : List Proc, List.Chain' Reexecs chain →
          (chain.filter (fun p => p.boot.effects.any isBootstrapStep)).length ≤ 1) := by
  refine ⟨mainBootstrap_idle out env args,
    fun initOut flags => mainDispatch_no_init out initOut flags env args, ?_, ?_,
    fun argv0 argv envv => mainBootstrap_exec_env out env args argv0 argv envv,
    chain_bootstraps_once⟩
  · intro h
    simp [ensureShellIntegration, h]
  · intro h
    rcases ensureShellIntegration_guard_first out env args with h0 | h0
    · rw [h0] at h
      cases h
    · exact h0

/-- C14 as stated fails: the process `gcool init`, started with an empty
environment, runs none of the automatic bootstrap and is then dispatched to
`handleInit`, which calls `detector.Install(false)`: a process with first
argument `init` installs shell integration, and it reaches that install
without `GCOOL_INIT_ATTEMPTED` ever being set. The same install happens when
the process is started with the guard already set. -/
theorem C14_counterexample_init_installs :
    osGetenv [] "GCOOL_INIT_ATTEMPTED" = ""
      ∧ mainDispatch freshBootOutcomes initOk defaultInitFlags [] ["gcool", "init"]
          = (⟨[], [], false, none⟩,
              Dispatch.init [InitEffect.printf "Detected shell: %s\n",
                InitEffect.printf "RC file: %s\n", InitEffect.install false])
      ∧ mainDispatch freshBootOutcomes initOk defaultInitFlags
            [("GCOOL_INIT_ATTEMPTED", "1")] ["gcool", "init"]
          = (⟨[("GCOOL_INIT_ATTEMPTED", "1")], [], false, none⟩,
              Dispatch.init [InitEffect.printf "Detected shell: %s\n",
                InitEffect.printf "RC file: %s\n", InitEffect.install false]) := by
  refine ⟨by decide, by decide, by decide⟩

theorem stringsJoin_data (args : List String) :
    (stringsJoin args " ").data = [ ' ' ].intercalate (args.map String.data) := by
  induction args with
  | nil => rfl
  | cons a rest ih =>
    cases rest with
    | nil => simp [stringsJoin, List.intercalate, List.intersperse]
    | cons b rest' =>
      rw [stringsJoin]
      simp only [String.data_append, ih]
      simp [List.intercalate, List.intersperse]

theorem shellWords_join_of_plain_args (args : List String) (hne : args ≠ [])
    (hplain : ∀ a ∈ args, a ≠ "" ∧ ' ' ∉ a.data) :
    shellWords (stringsJoin args " ") = args := by
  unfold shellWords
  rw [stringsJoin_data, List.splitOn_intercalate]
  · have hf : (args.map String.data).filter (fun w => !w.isEmpty) = args.map String.data := by
      rw [List.filter_eq_self]
      intro w hw
      obtain ⟨a, ha, rfl⟩ := List.mem_map.mp hw
      have := (hplain a ha).1
      cases hd : a.data with
      | nil => exact absurd (String.ext hd) this
      | cons c cs => rfl
    rw [hf, List.map_map]
    exact (List.map_congr_left (fun a _ => rfl)).trans (List.map_id args)
  · intro l hl
    obtain ⟨a, ha, rfl⟩ := List.mem_map.mp hl
    exact (hplain a ha).2
  · simpa using hne

/-- C15 (what the code does instead): the command string is `source `, the
startup file, `; ` and the arguments joined by single spaces, without quoting.
For the arguments `gcool`, `-path`, `/home/u/my repo` the re-executed shell is
handed `source /home/u/.bashrc; gcool -path /home/u/my repo`, whose tail
splits into four words, not the three arguments of the original invocation. -/
theorem C15_spaced_argument_is_split :
    (∀ rc args, sourceCmd rc args = "source " ++ rc ++ "; " ++ stringsJoin args " ")
      ∧ (mainBootstrap ⟨some ⟨"/home/u/.bashrc"⟩, true, true, true⟩ [("SHELL", "/bin/bash")]
            spacedArgs).effects
          = [BootEffect.setenv "GCOOL_INIT_ATTEMPTED" "1",
             BootEffect.stderr "✓ Activating shell integration...\n",
             BootEffect.exec "/bin/bash"
               ["bash", "-c", "source /home/u/.bashrc; gcool -path /home/u/my repo"]
               [("GCOOL_INIT_ATTEMPTED", "1"), ("SHELL", "/bin/bash")]]
      ∧ shellWords (stringsJoin spacedArgs " ") = ["gcool", "-path", "/home/u/my", "repo"]
      ∧ shellWords (stringsJoin spacedArgs " ") ≠ spacedArgs := by
  refine ⟨fun _ _ => rfl, by decide, by decide, by decide⟩

end Jean
